import Mathlib

/-!
Shallow embedding of the batching prediction engine and the self-play worker
thread of `craft_simulator` (`src/predictor.rs`, `src/selfplay.rs`).

Machine state that Rust shares through `Rc<Cell<..>>` / `Rc<RefCell<..>>`
is made explicit: the future cells (`PredictResult`) live in a heap
(`cells : List (Poll Out)`) indexed by allocation order, and the
pending-request table (`tasks`) stores cell indices instead of `Rc` handles.
`HashMap` is refined to an association list keyed in first-insertion order;
all claims proved below are insensitive to the iteration order of the map.
The tensorflow `Network` is abstract: a handle of type `Gr` interpreted by a
caller-supplied total inference function `runNet`.
-/

/-- `std::task::Poll`: the state of a future cell (`PredictResult.res`). -/
inductive Poll (α : Type) where
  | pending
  | ready (v : α)
deriving DecidableEq, Repr

/-- `Predictor` (predictor.rs): loaded networks plus the shared
pending-request table.  `cells` is the heap of all `PredictResult` cells
allocated so far; a pending request `(x, cid)` stores the input `x` and the
index `cid` of its future cell. -/
structure Predictor (St Out Gr : Type) where
  networks : List (String × Gr)
  tasks : List (String × List (St × Nat))
  cells : List (Poll Out)
deriving DecidableEq, Repr

/-- Association-list lookup (refines `HashMap::get` / `contains_key`). -/
def lookupN {β : Type} : List (String × β) → String → Option β
  | [], _ => none
  | (m, v) :: rest, n => if m = n then some v else lookupN rest n

/-- `tasks.entry(name).or_insert(Vec::new()).push(e)`: append `e` to the
entry for `name`, creating the entry if absent. -/
def pushTask {St : Type} : List (String × List (St × Nat)) → String → (St × Nat) →
    List (String × List (St × Nat))
  | [], n, e => [(n, [e])]
  | (m, v) :: rest, n, e =>
      if m = n then (m, v ++ [e]) :: rest else (m, v) :: pushTask rest n e

/-- `Predictor::new()`. -/
def Predictor.new {St Out Gr : Type} : Predictor St Out Gr :=
  { networks := [], tasks := [], cells := [] }

/-- `Predictor::load_network`: insert the network only when the name is not
yet present (`if !self.networks.contains_key(&name)`). -/
def load_network {St Out Gr : Type} (p : Predictor St Out Gr) (name : String) (g : Gr) :
    Predictor St Out Gr :=
  if (lookupN p.networks name).isSome then p
  else { p with networks := p.networks ++ [(name, g)] }

/-- `PredictQueue::async_predict`: allocate a fresh `Pending` cell, append
`(x, cell)` to the table entry for `name`, return the cell (its index).
The queue shares `tasks` with the `Predictor`, so this acts on the same
state. -/
def async_predict {St Out Gr : Type} (p : Predictor St Out Gr) (name : String) (x : St) :
    Predictor St Out Gr × Nat :=
  let cid := p.cells.length
  ({ p with
      tasks := pushTask p.tasks name (x, cid)
      cells := p.cells ++ [Poll.pending] }, cid)

/-- The resolution loop body of `Predictor::predict_batch`:
`for (result,d) in results.iter().zip(dest.iter()) { result.res.set(Poll::Ready(*d)) }`.
`zip` truncates at the shorter list. -/
def resolveOne {Out : Type} : List (Poll Out) → List Nat → List Out → List (Poll Out)
  | cells, [], _ => cells
  | cells, _ :: _, [] => cells
  | cells, cid :: ids, d :: ds => resolveOne (cells.set cid (Poll.ready d)) ids ds

/-- The per-group loop of `Predictor::predict_batch`: for each `(name, task_vec)`
look the network up (`expect("not found network")` — `none` models the panic),
unzip, run one inference call on the full input list, and resolve the cells
positionally.  Also returns the trace of inference calls `(name, inputs)` made,
in iteration order. -/
def runGroups {St Out Gr Setting : Type} (runNet : Gr → Setting → List St → List Out)
    (setting : Setting) (networks : List (String × Gr)) :
    List (Poll Out) → List (String × List (St × Nat)) →
    Option (List (Poll Out) × List (String × List St))
  | cells, [] => some (cells, [])
  | cells, (name, tv) :: rest =>
      match lookupN networks name with
      | none => none
      | some g =>
          let source := tv.map Prod.fst
          let dest := runNet g setting source
          let cells1 := resolveOne cells (tv.map Prod.snd) dest
          match runGroups runNet setting networks cells1 rest with
          | none => none
          | some (cf, calls) => some (cf, (name, source) :: calls)

/-- `Predictor::predict_batch`: process every group, then `tasks.clear()`.
`none` models the fatal `expect` path.  The second component of the result is
the instrumentation trace of inference calls. -/
def predict_batch {St Out Gr Setting : Type} (runNet : Gr → Setting → List St → List Out)
    (setting : Setting) (p : Predictor St Out Gr) :
    Option (Predictor St Out Gr × List (String × List St)) :=
  match runGroups runNet setting p.networks p.cells p.tasks with
  | none => none
  | some (cf, calls) => some ({ p with tasks := [], cells := cf }, calls)

/-- `PredictResult::poll`: read the current state of cell `cid`
(out-of-range indices never arise for cells handed out by `async_predict`). -/
def pollCell {St Out Gr : Type} (p : Predictor St Out Gr) (cid : Nat) : Poll Out :=
  p.cells.getD cid Poll.pending

/-- A predictor holding the given networks and no pending requests. -/
def mkPredictor {St Out Gr : Type} (nets : List (String × Gr)) : Predictor St Out Gr :=
  { networks := nets, tasks := [], cells := [] }

/-- A sequence of `async_predict` enqueue calls, in order. -/
def enqueueAll {St Out Gr : Type} (p : Predictor St Out Gr) :
    List (String × St) → Predictor St Out Gr
  | [] => p
  | r :: rest => enqueueAll (async_predict p r.1 r.2).1 rest

/-- The operations a single worker thread performs on its predictor/queue pair. -/
inductive POp (St Gr : Type) where
  | load (n : String) (g : Gr)
  | enq (n : String) (x : St)
  | flush
deriving DecidableEq, Repr

/-- One operation step; `none` models a panic. -/
def pstep {St Out Gr Setting : Type} (runNet : Gr → Setting → List St → List Out)
    (setting : Setting) (p : Predictor St Out Gr) : POp St Gr → Option (Predictor St Out Gr)
  | POp.load n g => some (load_network p n g)
  | POp.enq n x => some (async_predict p n x).1
  | POp.flush => (predict_batch runNet setting p).map Prod.fst

/-- Run a list of operations from a state; `none` once any step panics. -/
def prun {St Out Gr Setting : Type} (runNet : Gr → Setting → List St → List Out)
    (setting : Setting) : Predictor St Out Gr → List (POp St Gr) →
    Option (Predictor St Out Gr)
  | p, [] => some p
  | p, op :: rest =>
      match pstep runNet setting p op with
      | none => none
      | some q => prun runNet setting q rest

/-- Well-formedness maintained by every predictor/queue operation: every
cell referenced from the pending-request table is still Pending (a request's
cell is resolved only by the flush that also removes the request). -/
def WFp {St Out Gr : Type} (p : Predictor St Out Gr) : Prop :=
  ∀ gp ∈ p.tasks, ∀ q ∈ gp.2, p.cells[q.2]? = some Poll.pending

/-- The distinct names of a request list, in first-occurrence order
(the key set of the pending-request table built by those enqueues). -/
def firstOcc : List String → List String
  | [] => []
  | n :: rest => n :: (firstOcc rest).filter (fun m => m ≠ n)

/-- The pending-request list accumulated under `name` by enqueueing `reqs`
starting at cell index `off`: the inputs carrying `name`, each paired with
its global cell index. -/
def groupIdx {St : Type} : List (String × St) → Nat → String → List (St × Nat)
  | [], _, _ => []
  | (m, x) :: rest, off, n =>
      if m = n then (x, off) :: groupIdx rest (off + 1) n
      else groupIdx rest (off + 1) n

/-- The full pending-request table built by enqueueing `reqs` starting at
cell index `off`. -/
def tasksOf {St : Type} (reqs : List (String × St)) (off : Nat) :
    List (String × List (St × Nat)) :=
  (firstOcc (reqs.map Prod.fst)).map (fun n => (n, groupIdx reqs off n))

/-- The inputs submitted under `name`, in submission order. -/
def inputsOf {St : Type} (reqs : List (String × St)) (name : String) : List St :=
  (reqs.filter (fun r => r.1 = name)).map Prod.snd

/-- Position of request number `k` inside its own network identifier's group. -/
def posIn {St : Type} (reqs : List (String × St)) (k : Nat) (name : String) : Nat :=
  (reqs.take k).countP (fun r => r.1 = name)

/-- All cell indices referenced by a pending-request table. -/
def allCids {St : Type} (tasks : List (String × List (St × Nat))) : List Nat :=
  tasks.flatMap (fun g => g.2.map Prod.snd)

/-!
## Worker-thread model (`src/selfplay.rs`)

`selfplay_thread` owns one `Predictor`, a version cell `graph_info`, and
`batch_size` session coroutines (`selfplay_coroutine`) driven by a cooperative
executor.  The game logic (`logic.rs`), the search (`mcts.rs`) and the
executor (`executor.rs`) are not part of the predictor/worker sources;
following the design document they are modelled at their interface:

* Modelled from the spec (game rules external): a game terminates after a
  fixed number `T` of decision points.
* Modelled from the spec (search external): at each decision point the search
  performs a fixed number `S` of enqueue+await round trips against the
  prediction queue, all under the network identifier the session captured at
  game start (`selfplay_craftone` receives `graph_filename` by value and
  hands it to the search context once, before its turn loop).
* Modelled from the spec (executor external): `poll_all` polls every session
  slot once, in slot order; a session suspends exactly at an await on a
  pending future cell.
* Modelled from the spec (network external): inference returns one output
  per input (`runNetU` below).

The model-notification channel is modelled by the script of observations the
thread's `recv`/`try_recv` calls would make: a queued message, "currently
empty", or "disconnected".  The replay channel is modelled by the list of
replays delivered so far plus a flag saying whether the receiver is still
alive; `send(..).unwrap()` with a dead receiver is the panic path.
-/

/-- One observation of the model-notification channel. -/
inductive ChanObs (Gr : Type) where
  | msg (n : String) (g : Gr)
  | empty
  | disconnected
deriving DecidableEq, Repr

/-- The suspension-point state of one `selfplay_coroutine`.
`waiting = none`: about to start a game (will read the version cell);
`waiting = some cid`: suspended on future cell `cid`, inside the game whose
identifier `captured` was read at game start, at decision point `turn`,
query number `sim` of that decision. -/
structure Sess where
  captured : String
  turn : Nat
  sim : Nat
  waiting : Option Nat
deriving DecidableEq, Repr

/-- Observable events of a worker-thread run. -/
inductive Ev where
  | cellRead (slot : Nat) (name : String)
  | query (slot : Nat) (turn : Nat) (name : String)
  | replaySent (slot : Nat) (name : String)
  | pollAllMark
  | flushMark
  | drainMsg (name : String)
deriving DecidableEq, Repr

/-- The state owned by one worker thread. -/
structure TState (Gr : Type) where
  pred : Predictor Unit Unit Gr
  cell : String × Gr
  sessions : List Sess
  replays : List String
  writerAlive : Bool
deriving DecidableEq, Repr

/-- Result of a (partial) worker-thread execution: `ok` = still running,
`exited` = returned normally (channel disconnect), `panic` = aborted
(an `unwrap`/`expect` failed), `diverge` = the thread loops or blocks without
making further observable progress.  `exited` and `panic` carry the replays
delivered before the event, `ok` carries the state; all carry the events
emitted. -/
inductive PRes (Gr : Type) where
  | ok (ts : TState Gr) (ev : List Ev)
  | exited (replays : List String) (ev : List Ev)
  | panic (replays : List String) (ev : List Ev)
  | diverge
deriving DecidableEq, Repr

/-- Prepend already-emitted events to a result. -/
def PRes.withEvs {Gr : Type} : PRes Gr → List Ev → PRes Gr
  | PRes.ok ts e, pre => PRes.ok ts (pre ++ e)
  | PRes.exited r e, pre => PRes.exited r (pre ++ e)
  | PRes.panic r e, pre => PRes.panic r (pre ++ e)
  | PRes.diverge, _ => PRes.diverge

/-- Sequencing of worker-thread steps. -/
def PRes.bind {Gr : Type} (r : PRes Gr) (f : TState Gr → PRes Gr) : PRes Gr :=
  match r with
  | PRes.ok ts e => (f ts).withEvs e
  | x => x

/-- Configuration of the worker model: decision points per game, queries per
decision point, and `batch_size` (session slots). -/
structure WCfg where
  T : Nat
  S : Nat
  batch : Nat
deriving DecidableEq, Repr

/-- Modelled from the spec (network external): one output per input. -/
def runNetU {Gr : Type} : Gr → Unit → List Unit → List Unit :=
  fun _ _ xs => xs

/-- Session slot `i` enqueues one prediction request under `name` for
decision point `turn` and suspends on the fresh cell. -/
def enqStep {Gr : Type} (ts : TState Gr) (i : Nat) (name : String)
    (turn sim : Nat) : PRes Gr :=
  let pq := async_predict ts.pred name ()
  PRes.ok
    { ts with
        pred := pq.1
        sessions := ts.sessions.set i { captured := name, turn := turn, sim := sim,
                                        waiting := some pq.2 } }
    [Ev.query i turn name]

/-- Session slot `i` finishes its game and starts the next one: send the
replay (`writer_sender.send(..).unwrap()` — a dead receiver panics), re-read
the version cell, and issue the first query of the new game.  A game with no
await point (`T = 0` or `S = 0`) would loop inside one executor poll without
ever suspending. -/
def finishGame {Gr : Type} (cfg : WCfg) (ts : TState Gr) (i : Nat) (s : Sess) : PRes Gr :=
  if ts.writerAlive then
    let ts1 := { ts with replays := ts.replays ++ [s.captured] }
    let name := ts1.cell.1
    if 0 < cfg.T ∧ 0 < cfg.S then
      (enqStep ts1 i name 0 0).withEvs
        [Ev.replaySent i s.captured, Ev.cellRead i name]
    else PRes.diverge
  else PRes.panic ts.replays []

/-- Poll session slot `i` once: resume it from its suspension point and run
it to its next suspension point (or to a panic / in-poll livelock). -/
def pollSession {Gr : Type} (cfg : WCfg) (ts : TState Gr) (i : Nat) : PRes Gr :=
  match ts.sessions[i]? with
  | none => PRes.ok ts []
  | some s =>
      match s.waiting with
      | none =>
          -- game start: read the version cell once, then the first query
          let name := ts.cell.1
          if 0 < cfg.T ∧ 0 < cfg.S then
            (enqStep ts i name 0 0).withEvs [Ev.cellRead i name]
          else if ts.writerAlive then PRes.diverge
          else (PRes.panic ts.replays []).withEvs [Ev.cellRead i name]
      | some cid =>
          match pollCell ts.pred cid with
          | Poll.pending => PRes.ok ts []
          | Poll.ready _ =>
              if s.sim + 1 < cfg.S then
                enqStep ts i s.captured s.turn (s.sim + 1)
              else if s.turn + 1 < cfg.T then
                enqStep ts i s.captured (s.turn + 1) 0
              else
                finishGame cfg ts i s

/-- `executor.poll_all()`: poll `n` consecutive slots starting at `i`. -/
def pollAllGo {Gr : Type} (cfg : WCfg) : Nat → Nat → TState Gr → PRes Gr
  | 0, _, ts => PRes.ok ts []
  | n + 1, i, ts => (pollSession cfg ts i).bind (fun ts1 => pollAllGo cfg n (i + 1) ts1)

/-- `executor.poll_all()`: poll every session slot once, in slot order. -/
def pollAll {Gr : Type} (cfg : WCfg) (ts : TState Gr) : PRes Gr :=
  pollAllGo cfg ts.sessions.length 0 ts

/-- `predictor.predict_batch(..)` inside the worker loop; the `expect` on a
missing network is the panic path. -/
def flushStep {Gr : Type} (ts : TState Gr) : PRes Gr :=
  match predict_batch runNetU () ts.pred with
  | none => PRes.panic ts.replays []
  | some pc => PRes.ok { ts with pred := pc.1 } []

/-- `for _ in 0..k { executor.poll_all(); predictor.predict_batch(..) }`. -/
def driveRound {Gr : Type} (cfg : WCfg) : Nat → TState Gr → PRes Gr
  | 0, ts => PRes.ok ts []
  | k + 1, ts =>
      (((pollAll cfg ts).withEvs [Ev.pollAllMark]).bind
        (fun ts1 => (flushStep ts1).withEvs [Ev.flushMark])).bind
        (fun ts2 => driveRound cfg k ts2)

/-- The non-blocking model-sync drain (`try_recv` loop): load every queued
model, updating the shared version cell to the most recent one; stop at
`Empty`; return from the thread at `Disconnected`.  Also returns the script
remaining for later drains. -/
def drainLoop {Gr : Type} : List (ChanObs Gr) → TState Gr → PRes Gr × List (ChanObs Gr)
  | [], ts => (PRes.ok ts [], [])
  | ChanObs.msg n g :: rest, ts =>
      let r := drainLoop rest
        { ts with pred := load_network ts.pred n g, cell := (n, g) }
      (r.1.withEvs [Ev.drainMsg n], r.2)
  | ChanObs.empty :: rest, ts => (PRes.ok ts [], rest)
  | ChanObs.disconnected :: _, ts => (PRes.exited ts.replays [], [])

/-- One iteration of the worker thread's outer loop: model-sync drain, then
5 repetitions of poll-all-then-flush. -/
def outerIter {Gr : Type} (cfg : WCfg) (script : List (ChanObs Gr)) (ts : TState Gr) :
    PRes Gr × List (ChanObs Gr) :=
  let d := drainLoop script ts
  (d.1.bind (fun ts1 => driveRound cfg 5 ts1), d.2)

/-- The blocking bootstrap `recv`: waits through "empty" observations until
the first message or a disconnect. -/
inductive BootRes (Gr : Type) where
  | blocked
  | closed
  | first (n : String) (g : Gr) (rest : List (ChanObs Gr))
deriving DecidableEq, Repr

/-- Resolve the bootstrap `recv` against the observation script. -/
def bootstrapRecv {Gr : Type} : List (ChanObs Gr) → BootRes Gr
  | [] => BootRes.blocked
  | ChanObs.empty :: rest => bootstrapRecv rest
  | ChanObs.msg n g :: rest => BootRes.first n g rest
  | ChanObs.disconnected :: _ => BootRes.closed

/-- The fixed pool of session slots created at thread startup, each at the
start of its first game. -/
def initialSessions (batch : Nat) : List Sess :=
  List.replicate batch { captured := "", turn := 0, sim := 0, waiting := none }

/-- The outer loop of `selfplay_thread`, run for `fuel` iterations. -/
def threadLoop {Gr : Type} (cfg : WCfg) : Nat → List (ChanObs Gr) → TState Gr → PRes Gr
  | 0, _, ts => PRes.ok ts []
  | fuel + 1, script, ts =>
      let r := outerIter cfg script ts
      r.1.bind (fun ts1 => threadLoop cfg fuel r.2 ts1)

/-- `selfplay_thread`: block for the first model notification (returning at
once if the channel is already closed), create the predictor, load the first
network, set the version cell, spawn `batch` sessions, then run the outer
loop. -/
def threadRun {Gr : Type} (cfg : WCfg) (fuel : Nat) (script : List (ChanObs Gr)) : PRes Gr :=
  match bootstrapRecv script with
  | BootRes.blocked => PRes.diverge
  | BootRes.closed => PRes.exited [] []
  | BootRes.first n g rest =>
      threadLoop cfg fuel rest
        { pred := load_network Predictor.new n g
          cell := (n, g)
          sessions := initialSessions cfg.batch
          replays := []
          writerAlive := true }

/-- The events emitted by a worker-thread result. -/
def PRes.events {Gr : Type} : PRes Gr → List Ev
  | PRes.ok _ e => e
  | PRes.exited _ e => e
  | PRes.panic _ e => e
  | PRes.diverge => []

/-- Is this event one of the loop-structure markers (a poll round / a flush)? -/
def isMark : Ev → Bool
  | Ev.pollAllMark => true
  | Ev.flushMark => true
  | _ => false

/-- Is this event a replay emission by slot 0? -/
def isReplay0 : Ev → Bool
  | Ev.replaySent 0 _ => true
  | _ => false

/-- Is this event a version-cell read by slot 0? -/
def isCellRead0 : Ev → Bool
  | Ev.cellRead 0 _ => true
  | _ => false

/-- Is this event a decision-point query by slot 0? -/
def isQuery0 : Ev → Bool
  | Ev.query 0 _ _ => true
  | _ => false

/-- The network identifier carried by an event (empty for markers). -/
def evName : Ev → String
  | Ev.cellRead _ n => n
  | Ev.query _ _ n => n
  | Ev.replaySent _ n => n
  | Ev.drainMsg n => n
  | _ => ""

/-- Concrete scenario for the version-read cadence: one session slot, games
of 7 decision points with one query each, model "A" at bootstrap and model
"B" delivered while the first game is in flight. -/
def cfg4 : WCfg := { T := 7, S := 1, batch := 1 }

/-- Channel script for the scenario: "A" before the first outer iteration,
"B" before the second. -/
def script4 : List (ChanObs Unit) :=
  [ChanObs.msg "A" (), ChanObs.empty, ChanObs.msg "B" (), ChanObs.empty]

/-- The events of the first game of slot 0 in a trace: everything up to the
first replay emission. -/
def firstGameEvs (evs : List Ev) : List Ev :=
  evs.takeWhile (fun e => !isReplay0 e)

/-- The marker trace of `k` repetitions of poll-all-then-flush. -/
def pollFlushPattern : Nat → List Ev
  | 0 => []
  | k + 1 => Ev.pollAllMark :: Ev.flushMark :: pollFlushPattern k

/-!
## Helper lemmas
-/

theorem memOfGetq {α : Type} : ∀ (l : List α) (i : Nat) (a : α), l[i]? = some a → a ∈ l
  | b :: l, 0, a, h => by
      simp only [List.getElem?_cons_zero, Option.some.injEq] at h
      simp [h]
  | b :: l, i + 1, a, h => by
      simp only [List.getElem?_cons_succ] at h
      exact List.mem_cons_of_mem _ (memOfGetq l i a h)

theorem resolveOne_length {Out : Type} :
    ∀ (ids : List Nat) (cells : List (Poll Out)) (dest : List Out),
      (resolveOne cells ids dest).length = cells.length
  | [], _, _ => rfl
  | _ :: _, _, [] => rfl
  | cid :: ids, cells, d :: ds => by
      rw [resolveOne, resolveOne_length ids _ ds, List.length_set]

theorem resolveOne_not_mem {Out : Type} :
    ∀ (ids : List Nat) (cells : List (Poll Out)) (dest : List Out) (i : Nat),
      i ∉ ids → (resolveOne cells ids dest)[i]? = cells[i]?
  | [], _, _, _, _ => rfl
  | _ :: _, _, [], _, _ => rfl
  | cid :: ids, cells, d :: ds, i, h => by
      rw [resolveOne, resolveOne_not_mem ids _ ds i (fun hm => h (List.mem_cons_of_mem _ hm)),
        List.getElem?_set_ne]
      exact fun hc => h (hc ▸ List.mem_cons_self cid ids)

theorem resolveOne_get {Out : Type} :
    ∀ (ids : List Nat) (cells : List (Poll Out)) (dest : List Out),
      ids.Nodup → (∀ c ∈ ids, c < cells.length) →
      ∀ (j c : Nat), ids[j]? = some c →
        (∀ d, dest[j]? = some d →
            (resolveOne cells ids dest)[c]? = some (Poll.ready d)) ∧
        (dest[j]? = none → (resolveOne cells ids dest)[c]? = cells[c]?)
  | [], cells, dest, _, _, j, c, hj => by simp at hj
  | cid :: ids, cells, [], hnd, hlt, j, c, hj => by
      refine ⟨fun d hd => by simp at hd, fun _ => rfl⟩
  | cid :: ids, cells, d :: ds, hnd, hlt, 0, c, hj => by
      simp only [List.getElem?_cons_zero, Option.some.injEq] at hj
      subst hj
      have hcid : cid ∉ ids := (List.nodup_cons.mp hnd).1
      have hlen : cid < cells.length := hlt cid (List.mem_cons_self _ _)
      constructor
      · intro e he
        simp only [List.getElem?_cons_zero, Option.some.injEq] at he
        subst he
        rw [resolveOne, resolveOne_not_mem ids _ ds cid hcid,
          List.getElem?_set_self]
        simp [hlen]
      · intro hnone; simp at hnone
  | cid :: ids, cells, d :: ds, hnd, hlt, j + 1, c, hj => by
      simp only [List.getElem?_cons_succ] at hj
      have hcid : cid ∉ ids := (List.nodup_cons.mp hnd).1
      have hc : c ∈ ids := memOfGetq ids j c hj
      have ih := resolveOne_get ids (cells.set cid (Poll.ready d)) ds
        (List.nodup_cons.mp hnd).2
        (fun x hx => by rw [List.length_set]; exact hlt x (List.mem_cons_of_mem _ hx))
        j c hj
      constructor
      · intro e he
        simp only [List.getElem?_cons_succ] at he
        exact ih.1 e he
      · intro hnone
        simp only [List.getElem?_cons_succ] at hnone
        rw [resolveOne, ih.2 hnone, List.getElem?_set_ne]
        exact fun hcc => hcid (hcc ▸ hc)

theorem allCids_cons {St : Type} (n : String) (tv : List (St × Nat))
    (rest : List (String × List (St × Nat))) :
    allCids ((n, tv) :: rest) = tv.map Prod.snd ++ allCids rest := by
  simp [allCids]

theorem mem_allCids {St : Type} {tasks : List (String × List (St × Nat))}
    {gp : String × List (St × Nat)} {x : St} {c : Nat}
    (hgp : gp ∈ tasks) (hx : (x, c) ∈ gp.2) : c ∈ allCids tasks := by
  simp only [allCids, List.mem_flatMap]
  exact ⟨gp, hgp, List.mem_map.mpr ⟨(x, c), hx, rfl⟩⟩

theorem runGroups_none_iff {St Out Gr Setting : Type}
    (runNet : Gr → Setting → List St → List Out) (setting : Setting)
    (networks : List (String × Gr)) :
    ∀ (tasks : List (String × List (St × Nat))) (cells : List (Poll Out)),
      runGroups runNet setting networks cells tasks = none ↔
        ∃ gp ∈ tasks, lookupN networks gp.1 = none
  | [], cells => by simp [runGroups]
  | (name, tv) :: rest, cells => by
      cases hl : lookupN networks name with
      | none =>
          simp only [runGroups, hl, true_iff]
          exact ⟨(name, tv), List.mem_cons_self _ _, hl⟩
      | some g =>
          cases hr : runGroups runNet setting networks
              (resolveOne cells (tv.map Prod.snd) (runNet g setting (tv.map Prod.fst)))
              rest with
          | none =>
              have hrest := (runGroups_none_iff runNet setting networks rest _).mp hr
              simp only [runGroups, hl, hr, true_iff]
              obtain ⟨gp, hgp, hgl⟩ := hrest
              exact ⟨gp, List.mem_cons_of_mem _ hgp, hgl⟩
          | some pr =>
              have hno : ¬ ∃ gp ∈ rest, lookupN networks gp.1 = none := by
                intro hex
                have hr2 := (runGroups_none_iff runNet setting networks rest
                  (resolveOne cells (tv.map Prod.snd)
                    (runNet g setting (tv.map Prod.fst)))).mpr hex
                rw [hr2] at hr; exact Option.noConfusion hr
              simp only [runGroups, hl, hr]
              constructor
              · intro hfalse; exact absurd hfalse (by simp)
              · intro ⟨gp, hgp, hgl⟩
                rcases List.mem_cons.mp hgp with heq | hmem
                · subst heq; rw [hl] at hgl; exact Option.noConfusion hgl
                · exact absurd ⟨gp, hmem, hgl⟩ hno

theorem runGroups_untouched {St Out Gr Setting : Type}
    (runNet : Gr → Setting → List St → List Out) (setting : Setting)
    (networks : List (String × Gr)) :
    ∀ (tasks : List (String × List (St × Nat))) (cells cf : List (Poll Out))
      (calls : List (String × List St)),
      runGroups runNet setting networks cells tasks = some (cf, calls) →
      ∀ i, i ∉ allCids tasks → cf[i]? = cells[i]?
  | [], cells, cf, calls, h, i, _ => by
      simp only [runGroups, Option.some.injEq, Prod.mk.injEq] at h
      rw [h.1]
  | (name, tv) :: rest, cells, cf, calls, h, i, hi => by
      rw [allCids_cons, List.mem_append] at hi
      push_neg at hi
      cases hl : lookupN networks name with
      | none =>
          simp only [runGroups, hl] at h
          exact Option.noConfusion h
      | some g =>
          cases hr : runGroups runNet setting networks
              (resolveOne cells (tv.map Prod.snd) (runNet g setting (tv.map Prod.fst)))
              rest with
          | none =>
              simp only [runGroups, hl, hr] at h
              exact Option.noConfusion h
          | some pr =>
              obtain ⟨cf1, calls1⟩ := pr
              simp only [runGroups, hl, hr, Option.some.injEq, Prod.mk.injEq] at h
              have step := runGroups_untouched runNet setting networks rest _ cf1 calls1 hr
                i hi.2
              rw [← h.1, step, resolveOne_not_mem _ _ _ i hi.1]

theorem runGroups_spec {St Out Gr Setting : Type}
    (runNet : Gr → Setting → List St → List Out) (setting : Setting)
    (networks : List (String × Gr)) :
    ∀ (tasks : List (String × List (St × Nat))) (cells : List (Poll Out)),
      (∀ gp ∈ tasks, (lookupN networks gp.1).isSome) →
      (allCids tasks).Nodup →
      (∀ c ∈ allCids tasks, c < cells.length) →
      ∃ cf, runGroups runNet setting networks cells tasks
          = some (cf, tasks.map (fun gp => (gp.1, gp.2.map Prod.fst)))
        ∧ cf.length = cells.length
        ∧ (∀ i, i ∉ allCids tasks → cf[i]? = cells[i]?)
        ∧ ∀ gp ∈ tasks, ∀ g, lookupN networks gp.1 = some g →
            ∀ (j : Nat) (x : St) (c : Nat), gp.2[j]? = some (x, c) →
              (∀ d, (runNet g setting (gp.2.map Prod.fst))[j]? = some d →
                  cf[c]? = some (Poll.ready d)) ∧
              ((runNet g setting (gp.2.map Prod.fst))[j]? = none → cf[c]? = cells[c]?)
  | [], cells, _, _, _ => by
      refine ⟨cells, by simp [runGroups], rfl, fun _ _ => rfl, by simp⟩
  | (name, tv) :: rest, cells, hnet, hnd, hlt => by
      obtain ⟨g0, hl⟩ := Option.isSome_iff_exists.mp
        (hnet (name, tv) (List.mem_cons_self _ _))
      rw [allCids_cons] at hnd hlt
      have hnd1 : (tv.map Prod.snd).Nodup := (List.nodup_append.mp hnd).1
      have hnd2 : (allCids rest).Nodup := (List.nodup_append.mp hnd).2.1
      have hdisj : (tv.map Prod.snd).Disjoint (allCids rest) :=
        (List.nodup_append.mp hnd).2.2
      have hlt1 : ∀ c ∈ tv.map Prod.snd, c < cells.length :=
        fun c hc => hlt c (List.mem_append.mpr (Or.inl hc))
      have hlt2 : ∀ c ∈ allCids rest, c < cells.length :=
        fun c hc => hlt c (List.mem_append.mpr (Or.inr hc))
      set dest0 := runNet g0 setting (tv.map Prod.fst) with hdest0
      set cells1 := resolveOne cells (tv.map Prod.snd) dest0 with hcells1
      have hlen1 : cells1.length = cells.length := resolveOne_length _ _ _
      obtain ⟨cf, hrun, hlen, huntouched, hgroups⟩ :=
        runGroups_spec runNet setting networks rest cells1
          (fun gp hgp => hnet gp (List.mem_cons_of_mem _ hgp))
          hnd2 (fun c hc => hlen1 ▸ hlt2 c hc)
      refine ⟨cf, ?_, by rw [hlen, hlen1], ?_, ?_⟩
      · simp only [runGroups, hl, ← hdest0, ← hcells1, hrun, List.map_cons]
      · intro i hi
        rw [allCids_cons, List.mem_append] at hi
        push_neg at hi
        rw [huntouched i hi.2, resolveOne_not_mem _ _ _ i hi.1]
      · intro gp hgp g hg j x c hjc
        rcases List.mem_cons.mp hgp with heq | hmem
        · subst heq
          simp only at hg
          rw [hl] at hg
          injection hg with hg; subst hg
          have hcm : c ∈ tv.map Prod.snd := by
            have : (tv.map Prod.snd)[j]? = some c := by
              rw [List.getElem?_map, hjc]; rfl
            exact memOfGetq _ j c this
          have hcu : cf[c]? = cells1[c]? :=
            huntouched c (fun hmem2 => hdisj hcm hmem2)
          have hres := resolveOne_get (tv.map Prod.snd) cells dest0 hnd1 hlt1 j c
            (by rw [List.getElem?_map, hjc]; rfl)
          constructor
          · intro d hd
            rw [hcu]
            exact hres.1 d hd
          · intro hnone
            rw [hcu]
            exact hres.2 hnone
        · have hspec := hgroups gp hmem g hg j x c hjc
          have hcm : c ∈ allCids rest :=
            mem_allCids hmem (memOfGetq _ j _ hjc)
          constructor
          · exact hspec.1
          · intro hnone
            rw [hspec.2 hnone, hcells1,
              resolveOne_not_mem _ _ _ c (fun hmem2 => hdisj hmem2 hcm)]

/-!
## Characterization of the table built by a sequence of enqueues
-/

theorem mem_firstOcc : ∀ (ns : List String) (n : String), n ∈ firstOcc ns ↔ n ∈ ns
  | [], n => by simp [firstOcc]
  | m :: ns, n => by
      rw [firstOcc]
      constructor
      · intro h
        rcases List.mem_cons.mp h with heq | hmem
        · exact heq ▸ List.mem_cons_self _ _
        · exact List.mem_cons_of_mem _
            ((mem_firstOcc ns n).mp (List.mem_of_mem_filter hmem))
      · intro h
        rcases List.mem_cons.mp h with heq | hmem
        · exact heq ▸ List.mem_cons_self _ _
        · by_cases hnm : n = m
          · exact hnm ▸ List.mem_cons_self _ _
          · refine List.mem_cons_of_mem _ (List.mem_filter.mpr ?_)
            exact ⟨(mem_firstOcc ns n).mpr hmem, by simp [hnm]⟩

theorem firstOcc_nodup : ∀ (ns : List String), (firstOcc ns).Nodup
  | [] => List.nodup_nil
  | m :: ns => by
      rw [firstOcc, List.nodup_cons]
      refine ⟨fun hmem => ?_, List.Nodup.filter _ (firstOcc_nodup ns)⟩
      have := (List.mem_filter.mp hmem).2
      simp at this

theorem firstOcc_snoc : ∀ (ns : List String) (n : String),
    firstOcc (ns ++ [n]) = if n ∈ ns then firstOcc ns else firstOcc ns ++ [n]
  | [], n => by simp [firstOcc]
  | m :: ns, n => by
      rw [List.cons_append, firstOcc, firstOcc_snoc ns n, firstOcc]
      by_cases hmem : n ∈ ns
      · rw [if_pos hmem, if_pos (List.mem_cons_of_mem _ hmem)]
      · rw [if_neg hmem]
        by_cases hnm : n = m
        · rw [if_pos (hnm ▸ List.mem_cons_self _ _), List.filter_append]
          simp [hnm]
        · have : ¬ n ∈ m :: ns := by
            intro hc
            rcases List.mem_cons.mp hc with h1 | h2
            · exact hnm h1
            · exact hmem h2
          rw [if_neg this, List.filter_append]
          simp [List.cons_append, hnm]

theorem groupIdx_snoc {St : Type} :
    ∀ (l : List (String × St)) (off : Nat) (n : String) (x : St) (m : String),
      groupIdx (l ++ [(n, x)]) off m
        = groupIdx l off m ++ (if n = m then [(x, off + l.length)] else [])
  | [], off, n, x, m => rfl
  | (m0, y) :: l, off, n, x, m => by
      rw [List.cons_append, groupIdx, groupIdx, groupIdx_snoc l (off + 1) n x m]
      have harith : off + 1 + l.length = off + ((m0, y) :: l).length := by
        simp only [List.length_cons]
        omega
      rw [harith]
      by_cases h : m0 = m
      · rw [if_pos h, if_pos h, List.cons_append]
      · rw [if_neg h, if_neg h]

theorem groupIdx_not_mem {St : Type} :
    ∀ (l : List (String × St)) (off : Nat) (n : String),
      n ∉ l.map Prod.fst → groupIdx l off n = []
  | [], _, _, _ => rfl
  | (m, y) :: l, off, n, h => by
      rw [List.map_cons] at h
      rw [groupIdx, if_neg (fun hc => h (by rw [← hc]; exact List.mem_cons_self _ _))]
      exact groupIdx_not_mem l (off + 1) n (fun hc => h (List.mem_cons_of_mem _ hc))

theorem pushTask_map_not_mem {St : Type} :
    ∀ (ns : List String) (f : String → List (St × Nat)) (n : String) (e : St × Nat),
      n ∉ ns →
      pushTask (ns.map (fun m => (m, f m))) n e = ns.map (fun m => (m, f m)) ++ [(n, [e])]
  | [], _, _, _, _ => rfl
  | m0 :: ns, f, n, e, h => by
      rw [List.map_cons, pushTask,
        if_neg (fun hc => h (by rw [← hc]; exact List.mem_cons_self _ _)),
        pushTask_map_not_mem ns f n e (fun hc => h (List.mem_cons_of_mem _ hc)),
        List.cons_append]

theorem pushTask_map_mem {St : Type} :
    ∀ (ns : List String) (f : String → List (St × Nat)) (n : String) (e : St × Nat),
      ns.Nodup → n ∈ ns →
      pushTask (ns.map (fun m => (m, f m))) n e
        = ns.map (fun m => (m, f m ++ if n = m then [e] else []))
  | [], _, _, _, _, hmem => absurd hmem (List.not_mem_nil _)
  | m0 :: ns, f, n, e, hnd, hmem => by
      rw [List.map_cons, List.map_cons, pushTask]
      by_cases h : m0 = n
      · subst h
        rw [if_pos rfl, if_pos rfl]
        congr 1
        have hnin : m0 ∉ ns := (List.nodup_cons.mp hnd).1
        refine (List.map_congr_left ?_).symm
        intro a ha
        have : m0 ≠ a := fun hc => hnin (hc ▸ ha)
        simp [this]
      · rw [if_neg h, if_neg (fun hc => h hc.symm), List.append_nil,
          pushTask_map_mem ns f n e (List.nodup_cons.mp hnd).2
            (by
              rcases List.mem_cons.mp hmem with heq | hm
              · exact absurd heq.symm h
              · exact hm)]

theorem tasksOf_snoc {St : Type} (pre : List (String × St)) (n : String) (x : St) :
    tasksOf (pre ++ [(n, x)]) 0 = pushTask (tasksOf pre 0) n (x, pre.length) := by
  rw [tasksOf, tasksOf, List.map_append]
  simp only [List.map_cons, List.map_nil]
  rw [firstOcc_snoc]
  by_cases hmem : n ∈ pre.map Prod.fst
  · rw [if_pos hmem,
      pushTask_map_mem (firstOcc (pre.map Prod.fst)) (fun m => groupIdx pre 0 m) n
        (x, pre.length) (firstOcc_nodup _) ((mem_firstOcc _ n).mpr hmem)]
    refine List.map_congr_left (fun m _ => ?_)
    rw [groupIdx_snoc]
    simp only [Nat.zero_add]
  · rw [if_neg hmem,
      pushTask_map_not_mem (firstOcc (pre.map Prod.fst)) (fun m => groupIdx pre 0 m) n
        (x, pre.length) (fun hc => hmem ((mem_firstOcc _ n).mp hc)),
      List.map_append]
    congr 1
    · refine List.map_congr_left (fun m hm => ?_)
      rw [groupIdx_snoc]
      have : n ≠ m := fun hc => hmem (hc ▸ (mem_firstOcc _ m).mp hm)
      simp [this]
    · rw [List.map_singleton, groupIdx_snoc, groupIdx_not_mem pre 0 n hmem]
      simp

theorem enqueueAll_from {St Out Gr : Type} :
    ∀ (reqs pre : List (String × St)) (nets : List (String × Gr)),
      enqueueAll (Predictor.mk nets (tasksOf pre 0)
          (List.replicate pre.length Poll.pending) : Predictor St Out Gr) reqs
        = Predictor.mk nets (tasksOf (pre ++ reqs) 0)
            (List.replicate (pre ++ reqs).length Poll.pending)
  | [], pre, nets => by simp [enqueueAll]
  | r :: rest, pre, nets => by
      obtain ⟨n, x⟩ := r
      rw [enqueueAll]
      have hstep : (async_predict (Predictor.mk nets (tasksOf pre 0)
          (List.replicate pre.length Poll.pending) : Predictor St Out Gr) n x).1
          = Predictor.mk nets (tasksOf (pre ++ [(n, x)]) 0)
              (List.replicate (pre ++ [(n, x)]).length Poll.pending) := by
        simp only [async_predict, List.length_replicate]
        rw [← tasksOf_snoc, ← List.replicate_succ']
        simp [List.length_append]
      rw [hstep, enqueueAll_from rest (pre ++ [(n, x)]) nets]
      simp [List.append_assoc]

/-- The predictor state reached by enqueueing `reqs` into a fresh predictor
holding `nets`: the table groups the requests by identifier in submission
order, and request number `k` owns the Pending cell number `k`. -/
theorem enqueueAll_spec {St Out Gr : Type} (nets : List (String × Gr))
    (reqs : List (String × St)) :
    enqueueAll (mkPredictor nets : Predictor St Out Gr) reqs
      = Predictor.mk nets (tasksOf reqs 0) (List.replicate reqs.length Poll.pending) := by
  have h := @enqueueAll_from St Out Gr reqs [] nets
  simpa [mkPredictor, tasksOf, firstOcc] using h

theorem groupIdx_pos {St : Type} :
    ∀ (l : List (String × St)) (off k : Nat) (n : String) (x : St),
      l[k]? = some (n, x) →
      (groupIdx l off n)[posIn l k n]? = some (x, off + k)
  | [], off, k, n, x, h => by simp at h
  | (m, y) :: l, off, 0, n, x, h => by
      simp only [List.getElem?_cons_zero, Option.some.injEq, Prod.mk.injEq] at h
      rw [groupIdx, if_pos h.1]
      simp [posIn, h.2]
  | (m, y) :: l, off, k + 1, n, x, h => by
      simp only [List.getElem?_cons_succ] at h
      have ih := groupIdx_pos l (off + 1) k n x h
      have hpos : posIn ((m, y) :: l) (k + 1) n
          = posIn l k n + (if m = n then 1 else 0) := by
        rw [posIn, posIn, List.take_succ_cons, List.countP_cons]
        by_cases hmn : m = n <;> simp [hmn]
      rw [groupIdx, hpos]
      by_cases hmn : m = n
      · rw [if_pos hmn, if_pos hmn, List.getElem?_cons_succ, ih]
        simp only [Option.some.injEq, Prod.mk.injEq, true_and]
        omega
      · rw [if_neg hmn, if_neg hmn]
        simp only [Nat.add_zero]
        rw [ih]
        simp only [Option.some.injEq, Prod.mk.injEq, true_and]
        omega

theorem groupIdx_map_fst {St : Type} :
    ∀ (l : List (String × St)) (off : Nat) (n : String),
      (groupIdx l off n).map Prod.fst = inputsOf l n
  | [], _, _ => rfl
  | (m, y) :: l, off, n => by
      rw [groupIdx, inputsOf]
      by_cases hmn : m = n
      · rw [if_pos hmn, List.filter_cons_of_pos (by simp [hmn]), List.map_cons,
          List.map_cons, groupIdx_map_fst l (off + 1) n, inputsOf]
      · rw [if_neg hmn, List.filter_cons_of_neg (by simp [hmn]),
          groupIdx_map_fst l (off + 1) n, inputsOf]

theorem groupIdx_snd_mem {St : Type} :
    ∀ (l : List (String × St)) (off : Nat) (n : String) (c : Nat),
      c ∈ (groupIdx l off n).map Prod.snd →
      ∃ k, k < l.length ∧ c = off + k ∧ ∃ x, l[k]? = some (n, x)
  | [], _, _, _, h => by simp [groupIdx] at h
  | (m, y) :: l, off, n, c, h => by
      rw [groupIdx] at h
      by_cases hmn : m = n
      · rw [if_pos hmn, List.map_cons] at h
        rcases List.mem_cons.mp h with heq | hmem
        · exact ⟨0, by simp, by simpa using heq, y, by simp [hmn]⟩
        · obtain ⟨k, hk, hc, x, hx⟩ := groupIdx_snd_mem l (off + 1) n c hmem
          exact ⟨k + 1, by simpa using hk, by omega, x, by simpa using hx⟩
      · rw [if_neg hmn] at h
        obtain ⟨k, hk, hc, x, hx⟩ := groupIdx_snd_mem l (off + 1) n c h
        exact ⟨k + 1, by simpa using hk, by omega, x, by simpa using hx⟩

theorem groupIdx_snd_nodup {St : Type} :
    ∀ (l : List (String × St)) (off : Nat) (n : String),
      ((groupIdx l off n).map Prod.snd).Nodup
  | [], _, _ => List.nodup_nil
  | (m, y) :: l, off, n => by
      rw [groupIdx]
      by_cases hmn : m = n
      · rw [if_pos hmn, List.map_cons, List.nodup_cons]
        refine ⟨fun hmem => ?_, groupIdx_snd_nodup l (off + 1) n⟩
        obtain ⟨k, _, hc, _⟩ := groupIdx_snd_mem l (off + 1) n off hmem
        omega
      · rw [if_neg hmn]
        exact groupIdx_snd_nodup l (off + 1) n

theorem allCids_tasksOf {St : Type} (reqs : List (String × St)) :
    allCids (tasksOf reqs 0)
      = (firstOcc (reqs.map Prod.fst)).flatMap
          (fun n => (groupIdx reqs 0 n).map Prod.snd) := by
  rw [tasksOf, allCids, List.flatMap_map]

theorem nodup_flatMap_groups {St : Type} (reqs : List (String × St)) :
    ∀ (ns : List String), ns.Nodup →
      (ns.flatMap (fun n => (groupIdx reqs 0 n).map Prod.snd)).Nodup
  | [], _ => List.nodup_nil
  | n0 :: ns, hnd => by
      rw [List.flatMap_cons, List.nodup_append]
      refine ⟨groupIdx_snd_nodup reqs 0 n0,
        nodup_flatMap_groups reqs ns (List.nodup_cons.mp hnd).2, ?_⟩
      intro c hc1 hc2
      rw [List.mem_flatMap] at hc2
      obtain ⟨m, hm, hcm⟩ := hc2
      obtain ⟨k1, _, hc1k, x1, hx1⟩ := groupIdx_snd_mem reqs 0 n0 c hc1
      obtain ⟨k2, _, hc2k, x2, hx2⟩ := groupIdx_snd_mem reqs 0 m c hcm
      have hkk : k1 = k2 := by omega
      rw [hkk, hx2] at hx1
      have hpair := Option.some.inj hx1
      have hn0m : n0 = m := (congrArg Prod.fst hpair).symm
      exact (List.nodup_cons.mp hnd).1 (hn0m ▸ hm)

theorem allCids_tasksOf_nodup {St : Type} (reqs : List (String × St)) :
    (allCids (tasksOf reqs 0)).Nodup := by
  rw [allCids_tasksOf]
  exact nodup_flatMap_groups reqs _ (firstOcc_nodup _)

theorem allCids_tasksOf_lt {St : Type} (reqs : List (String × St)) :
    ∀ c ∈ allCids (tasksOf reqs 0), c < reqs.length := by
  intro c hc
  rw [allCids_tasksOf, List.mem_flatMap] at hc
  obtain ⟨n, _, hcn⟩ := hc
  obtain ⟨k, hk, hck, _⟩ := groupIdx_snd_mem reqs 0 n c hcn
  omega

/-!
## Claim theorems: the Predictor (`src/predictor.rs`)
-/

/-- C3: `predict_batch` takes the fatal invariant-violation path (the
`expect("not found network")` panic, modelled by `none`) exactly when the
pending-request table mentions a network identifier with no loaded network;
whenever every identifier in the table has a loaded network, that failure
branch is unreachable and the flush succeeds. -/
theorem predict_batch_fatal_iff_missing_network {St Out Gr Setting : Type}
    (runNet : Gr → Setting → List St → List Out) (setting : Setting)
    (p : Predictor St Out Gr) :
    predict_batch runNet setting p = none ↔
      ∃ gp ∈ p.tasks, lookupN p.networks gp.1 = none := by
  rw [← runGroups_none_iff runNet setting p.networks p.tasks p.cells]
  cases hr : runGroups runNet setting p.networks p.cells p.tasks with
  | none => simp [predict_batch, hr]
  | some pr => simp [predict_batch, hr]

/-- C6: `load_network` is idempotent per identifier: when the identifier is
already present in the network map, a second call is a no-op — the whole
predictor, in particular the stored network instance, is unchanged,
regardless of the weights supplied in the second call. -/
theorem load_network_second_call_noop {St Out Gr : Type}
    (p : Predictor St Out Gr) (name : String) (g2 : Gr)
    (h : (lookupN p.networks name).isSome) :
    load_network p name g2 = p := by
  rw [load_network, if_pos h]

/-- Witness for C6 at a concrete predictor: "a" is loaded with weights `3`,
and re-loading "a" with weights `99` changes nothing. -/
theorem load_network_second_call_noop_witness :
    (lookupN (load_network (Predictor.new : Predictor Nat Nat Nat)
        "a" 3).networks "a").isSome
    ∧ load_network (load_network (Predictor.new : Predictor Nat Nat Nat)
        "a" 3) "a" 99
      = load_network (Predictor.new : Predictor Nat Nat Nat) "a" 3 :=
  ⟨by decide, load_network_second_call_noop _ "a" 99 (by decide)⟩

/-- C7: flushing with an empty pending-request table is a no-op: it performs
no inference call (the call trace is empty), resolves no future cell and
leaves the predictor unchanged, and it does not panic (the result is `some`). -/
theorem predict_batch_empty_table_noop {St Out Gr Setting : Type}
    (runNet : Gr → Setting → List St → List Out) (setting : Setting)
    (p : Predictor St Out Gr) (h : p.tasks = []) :
    predict_batch runNet setting p = some (p, []) := by
  obtain ⟨networks, tasks, cells⟩ := p
  simp only at h
  subst h
  rfl

/-- Witness for C7 at a concrete predictor with loaded networks and
allocated cells but an empty table. -/
theorem predict_batch_empty_table_noop_witness :
    (Predictor.mk [("a", 7)] [] [Poll.ready 5, Poll.pending] :
        Predictor Nat Nat Nat).tasks = []
    ∧ predict_batch (fun g _ xs => xs.map (fun x => x + g)) ()
        (Predictor.mk [("a", 7)] [] [Poll.ready 5, Poll.pending])
      = some (Predictor.mk [("a", 7)] [] [Poll.ready 5, Poll.pending], []) :=
  ⟨rfl, predict_batch_empty_table_noop _ () _ rfl⟩

theorem ltOfGetq {α : Type} {l : List α} {i : Nat} {a : α}
    (h : l[i]? = some a) : i < l.length := by
  by_contra hc
  rw [List.getElem?_eq_none (by omega)] at h
  exact Option.noConfusion h

theorem getq_append_left {α : Type} {l m : List α} {i : Nat} (h : i < l.length) :
    (l ++ m)[i]? = l[i]? := by
  rw [List.getElem?_append]
  simp [h]

theorem pollCell_eq {St Out Gr : Type} (p : Predictor St Out Gr) (cid : Nat) :
    pollCell p cid = (p.cells[cid]?).getD Poll.pending := by
  rw [pollCell, List.getD_eq_getElem?_getD]

/-- C9: when the inference call for a network identifier returns fewer
outputs than there are pending inputs, `predict_batch` resolves exactly the
first `len(outputs)` future cells in input order, silently leaves every
remaining future cell Pending, raises no error (the flush still returns
normally), and still clears the whole table — so nothing can ever resolve
the leftover cells. -/
theorem predict_batch_short_output {St Out Gr Setting : Type}
    (runNet : Gr → Setting → List St → List Out) (setting : Setting)
    (p : Predictor St Out Gr) (name : String) (tv : List (St × Nat)) (g : Gr)
    (htasks : p.tasks = [(name, tv)])
    (hg : lookupN p.networks name = some g)
    (hnd : (tv.map Prod.snd).Nodup)
    (hpend : ∀ c ∈ tv.map Prod.snd, p.cells[c]? = some Poll.pending) :
    ∃ p1, predict_batch runNet setting p = some (p1, [(name, tv.map Prod.fst)])
      ∧ p1.tasks = []
      ∧ ∀ (j : Nat) (x : St) (c : Nat), tv[j]? = some (x, c) →
          (∀ d, (runNet g setting (tv.map Prod.fst))[j]? = some d →
              pollCell p1 c = Poll.ready d)
          ∧ ((runNet g setting (tv.map Prod.fst)).length ≤ j →
              pollCell p1 c = Poll.pending) := by
  have hsingle : allCids [(name, tv)] = tv.map Prod.snd := by
    rw [allCids_cons]; simp [allCids]
  obtain ⟨cf, hrun, _hlen, _huntouched, hgroups⟩ :=
    runGroups_spec runNet setting p.networks [(name, tv)] p.cells
      (by
        intro gp hgp
        rcases List.mem_cons.mp hgp with heq | habs
        · subst heq; rw [hg]; rfl
        · simp at habs)
      (by rw [hsingle]; exact hnd)
      (by
        rw [hsingle]
        intro c hc
        exact ltOfGetq (hpend c hc))
  refine ⟨{ p with tasks := [], cells := cf }, ?_, rfl, ?_⟩
  · rw [predict_batch, htasks, hrun]
    simp
  · intro j x c hjc
    have hspec := hgroups (name, tv) (List.mem_cons_self _ _) g hg j x c hjc
    have hcmem : c ∈ tv.map Prod.snd :=
      memOfGetq _ j c (by rw [List.getElem?_map, hjc]; rfl)
    constructor
    · intro d hd
      rw [pollCell_eq]
      simp only
      rw [hspec.1 d hd]
      rfl
    · intro hle
      rw [pollCell_eq]
      simp only
      rw [hspec.2 (List.getElem?_eq_none hle), hpend c hcmem]
      rfl

/-- Witness for C9: two requests under "a" (cells 0 and 1), a network whose
batch call returns a single output; cell 0 is resolved with it, cell 1 stays
Pending, the table is cleared and no panic occurs. -/
theorem predict_batch_short_output_witness :
    ((Predictor.mk [("a", 3)] [("a", [(10, 0), (20, 1)])]
        [Poll.pending, Poll.pending] : Predictor Nat Nat Nat).tasks
      = [("a", [(10, 0), (20, 1)])])
    ∧ (∃ p1, predict_batch
          (fun (g : Nat) (_ : Unit) (xs : List Nat) => (xs.map (fun x => x + g)).take 1) ()
          (Predictor.mk [("a", 3)] [("a", [(10, 0), (20, 1)])]
            [Poll.pending, Poll.pending])
        = some (p1, [("a", [10, 20])])
      ∧ p1.tasks = []
      ∧ ∀ (j : Nat) (x c : Nat), ([(10, 0), (20, 1)] : List (Nat × Nat))[j]? = some (x, c) →
          (∀ d, (((([10, 20] : List Nat).map (fun x => x + 3)).take 1))[j]? = some d →
              pollCell p1 c = Poll.ready d)
          ∧ (((([10, 20] : List Nat).map (fun x => x + 3)).take 1).length ≤ j →
              pollCell p1 c = Poll.pending)) :=
  ⟨rfl, predict_batch_short_output
    (fun (g : Nat) (_ : Unit) (xs : List Nat) => (xs.map (fun x => x + g)).take 1) ()
    (Predictor.mk [("a", 3)] [("a", [(10, 0), (20, 1)])] [Poll.pending, Poll.pending])
    "a" [(10, 0), (20, 1)] 3 rfl rfl (by decide) (by decide)⟩

theorem mem_pushTask {St : Type} :
    ∀ (tasks : List (String × List (St × Nat))) (n : String) (e : St × Nat)
      (gp : String × List (St × Nat)), gp ∈ pushTask tasks n e →
      ∀ q ∈ gp.2, (∃ gp0 ∈ tasks, q ∈ gp0.2) ∨ q = e
  | [], n, e, gp, hgp, q, hq => by
      simp only [pushTask, List.mem_singleton] at hgp
      subst hgp
      simp only [List.mem_singleton] at hq
      exact Or.inr hq
  | (m, v) :: rest, n, e, gp, hgp, q, hq => by
      rw [pushTask] at hgp
      by_cases hmn : m = n
      · rw [if_pos hmn] at hgp
        rcases List.mem_cons.mp hgp with heq | hmem
        · subst heq
          rcases List.mem_append.mp hq with hold | hnew
          · exact Or.inl ⟨(m, v), List.mem_cons_self _ _, hold⟩
          · exact Or.inr (List.mem_singleton.mp hnew)
        · exact Or.inl ⟨gp, List.mem_cons_of_mem _ hmem, hq⟩
      · rw [if_neg hmn] at hgp
        rcases List.mem_cons.mp hgp with heq | hmem
        · subst heq
          exact Or.inl ⟨(m, v), List.mem_cons_self _ _, hq⟩
        · rcases mem_pushTask rest n e gp hmem q hq with ⟨gp0, hgp0, hq0⟩ | hnew
          · exact Or.inl ⟨gp0, List.mem_cons_of_mem _ hgp0, hq0⟩
          · exact Or.inr hnew

theorem mem_allCids_inv {St : Type} {tasks : List (String × List (St × Nat))} {c : Nat}
    (h : c ∈ allCids tasks) : ∃ gp ∈ tasks, ∃ q ∈ gp.2, Prod.snd q = c := by
  simp only [allCids, List.mem_flatMap, List.mem_map] at h
  obtain ⟨gp, hgp, q, hq, hqc⟩ := h
  exact ⟨gp, hgp, q, hq, hqc⟩

theorem load_network_tasks {St Out Gr : Type} (p : Predictor St Out Gr)
    (n : String) (g : Gr) : (load_network p n g).tasks = p.tasks := by
  rw [load_network]; split <;> rfl

theorem load_network_cells {St Out Gr : Type} (p : Predictor St Out Gr)
    (n : String) (g : Gr) : (load_network p n g).cells = p.cells := by
  rw [load_network]; split <;> rfl

theorem getD_pending_ready {Out : Type} {o : Option (Poll Out)} {v : Out}
    (h : o.getD Poll.pending = Poll.ready v) : o = some (Poll.ready v) := by
  cases o with
  | none => exact absurd h (by simp)
  | some x => simp only [Option.getD_some] at h; rw [h]

theorem wf_pstep {St Out Gr Setting : Type}
    {runNet : Gr → Setting → List St → List Out} {setting : Setting}
    {p p2 : Predictor St Out Gr} {op : POp St Gr}
    (hwf : WFp p) (hstep : pstep runNet setting p op = some p2) : WFp p2 := by
  cases op with
  | load n g =>
      rw [pstep, Option.some.injEq] at hstep
      subst hstep
      intro gp hgp q hq
      rw [load_network_tasks] at hgp
      rw [load_network_cells]
      exact hwf gp hgp q hq
  | enq n x =>
      rw [pstep, Option.some.injEq] at hstep
      subst hstep
      intro gp hgp q hq
      simp only [async_predict] at hgp ⊢
      rcases mem_pushTask p.tasks n (x, p.cells.length) gp hgp q hq with
        ⟨gp0, hgp0, hq0⟩ | hnew
      · have hold := hwf gp0 hgp0 q hq0
        rw [getq_append_left (ltOfGetq hold)]
        exact hold
      · subst hnew
        simp
  | flush =>
      rw [pstep] at hstep
      cases hb : predict_batch runNet setting p with
      | none => rw [hb] at hstep; exact Option.noConfusion hstep
      | some pr =>
          rw [hb, Option.map_some'] at hstep
          injection hstep with hstep
          subst hstep
          rw [predict_batch] at hb
          cases hr : runGroups runNet setting p.networks p.cells p.tasks with
          | none => rw [hr] at hb; exact Option.noConfusion hb
          | some cfc =>
              rw [hr, Option.some.injEq] at hb
              intro gp hgp q hq
              rw [← hb] at hgp
              simp at hgp

theorem ready_persist_step {St Out Gr Setting : Type}
    {runNet : Gr → Setting → List St → List Out} {setting : Setting}
    {p p2 : Predictor St Out Gr} {op : POp St Gr} {cid : Nat} {v : Out}
    (hwf : WFp p) (hstep : pstep runNet setting p op = some p2)
    (hready : pollCell p cid = Poll.ready v) : pollCell p2 cid = Poll.ready v := by
  rw [pollCell_eq] at hready ⊢
  have hcell : p.cells[cid]? = some (Poll.ready v) := getD_pending_ready hready
  cases op with
  | load n g =>
      rw [pstep, Option.some.injEq] at hstep
      subst hstep
      rw [load_network_cells, hcell]
      rfl
  | enq n x =>
      rw [pstep, Option.some.injEq] at hstep
      subst hstep
      simp only [async_predict]
      rw [getq_append_left (ltOfGetq hcell), hcell]
      rfl
  | flush =>
      rw [pstep] at hstep
      cases hb : predict_batch runNet setting p with
      | none => rw [hb] at hstep; exact Option.noConfusion hstep
      | some pr =>
          rw [hb, Option.map_some'] at hstep
          injection hstep with hstep
          subst hstep
          rw [predict_batch] at hb
          cases hr : runGroups runNet setting p.networks p.cells p.tasks with
          | none => rw [hr] at hb; exact Option.noConfusion hb
          | some cfc =>
              rw [hr, Option.some.injEq] at hb
              have hnot : cid ∉ allCids p.tasks := by
                intro hmem
                obtain ⟨gp, hgp, q, hq, hqc⟩ := mem_allCids_inv hmem
                have := hwf gp hgp q hq
                rw [hqc, hcell] at this
                exact Poll.noConfusion (Option.some.inj this)
              have huntouched := runGroups_untouched runNet setting p.networks
                p.tasks p.cells cfc.1 cfc.2 (by rw [hr]) cid hnot
              rw [← hb]
              simp only
              rw [huntouched, hcell]
              rfl

theorem prun_wf {St Out Gr Setting : Type}
    {runNet : Gr → Setting → List St → List Out} {setting : Setting} :
    ∀ {ops : List (POp St Gr)} {p p2 : Predictor St Out Gr},
      WFp p → prun runNet setting p ops = some p2 → WFp p2
  | [], p, p2, hwf, hrun => by
      rw [prun, Option.some.injEq] at hrun
      exact hrun ▸ hwf
  | op :: rest, p, p2, hwf, hrun => by
      rw [prun] at hrun
      cases hs : pstep runNet setting p op with
      | none => rw [hs] at hrun; exact Option.noConfusion hrun
      | some q =>
          rw [hs] at hrun
          exact prun_wf (wf_pstep hwf hs) hrun

theorem ready_persist_run {St Out Gr Setting : Type}
    {runNet : Gr → Setting → List St → List Out} {setting : Setting} :
    ∀ {ops : List (POp St Gr)} {p p2 : Predictor St Out Gr} {cid : Nat} {v : Out},
      WFp p → pollCell p cid = Poll.ready v →
      prun runNet setting p ops = some p2 → pollCell p2 cid = Poll.ready v
  | [], p, p2, cid, v, _, hready, hrun => by
      rw [prun, Option.some.injEq] at hrun
      exact hrun ▸ hready
  | op :: rest, p, p2, cid, v, hwf, hready, hrun => by
      rw [prun] at hrun
      cases hs : pstep runNet setting p op with
      | none => rw [hs] at hrun; exact Option.noConfusion hrun
      | some q =>
          rw [hs] at hrun
          exact ready_persist_run (wf_pstep hwf hs) (ready_persist_step hwf hs hready) hrun

/-- C2: every future cell is created Pending by `async_predict`; and in any
state reachable from a fresh predictor by enqueue/flush/load operations,
once a poll returns `Ready v` for a cell, every later poll after any further
operations returns the same `Ready v` — a cell never reverts to Pending and
is never re-resolved to a different value. -/
theorem future_cell_lifecycle {St Out Gr Setting : Type}
    (runNet : Gr → Setting → List St → List Out) (setting : Setting) :
    (∀ (p : Predictor St Out Gr) (n : String) (x : St),
        pollCell (async_predict p n x).1 (async_predict p n x).2 = Poll.pending)
    ∧ ∀ (ops : List (POp St Gr)) (p : Predictor St Out Gr) (cid : Nat) (v : Out)
        (ops2 : List (POp St Gr)) (p2 : Predictor St Out Gr),
        prun runNet setting Predictor.new ops = some p →
        pollCell p cid = Poll.ready v →
        prun runNet setting p ops2 = some p2 →
        pollCell p2 cid = Poll.ready v := by
  constructor
  · intro p n x
    rw [pollCell_eq]
    simp [async_predict]
  · intro ops p cid v ops2 p2 hops hready hops2
    have hwf0 : WFp (Predictor.new : Predictor St Out Gr) := by
      intro gp hgp q hq
      simp [Predictor.new] at hgp
    exact ready_persist_run (prun_wf hwf0 hops) hready hops2

/-- C1: for the pending-request table built by any sequence of enqueue
(`async_predict`) calls, one flush (`predict_batch`) makes exactly one
inference call per network identifier present, supplying that identifier's
entire accumulated input sequence in submission order; it resolves each
request's future cell (request number `k` owns cell `k`) with the output at
the same position as its input inside its identifier's batch; and afterwards
the whole table is empty. -/
theorem enqueue_flush_roundtrip {St Out Gr Setting : Type}
    (runNet : Gr → Setting → List St → List Out) (setting : Setting)
    (nets : List (String × Gr)) (reqs : List (String × St))
    (hload : ∀ r ∈ reqs, (lookupN nets r.1).isSome)
    (hlen : ∀ (g : Gr) (xs : List St), (runNet g setting xs).length = xs.length) :
    ∃ p1 calls,
      predict_batch runNet setting (enqueueAll (mkPredictor nets) reqs) = some (p1, calls)
      ∧ calls = (firstOcc (reqs.map Prod.fst)).map (fun n => (n, inputsOf reqs n))
      ∧ p1.tasks = []
      ∧ ∀ (k : Nat) (name : String) (x : St), reqs[k]? = some (name, x) →
          (async_predict (enqueueAll (mkPredictor nets : Predictor St Out Gr)
              (reqs.take k)) name x).2 = k
          ∧ ∃ g d, lookupN nets name = some g
            ∧ (runNet g setting (inputsOf reqs name))[posIn reqs k name]? = some d
            ∧ pollCell p1 k = Poll.ready d := by
  rw [enqueueAll_spec]
  have hnet : ∀ gp ∈ tasksOf reqs 0, (lookupN nets gp.1).isSome := by
    intro gp hgp
    rw [tasksOf] at hgp
    obtain ⟨n, hn, hgpn⟩ := List.mem_map.mp hgp
    obtain ⟨r, hr, hrn⟩ := List.mem_map.mp ((mem_firstOcc _ n).mp hn)
    subst hgpn
    exact hrn ▸ hload r hr
  obtain ⟨cf, hrun, hcflen, huntouched, hgroups⟩ :=
    runGroups_spec runNet setting nets (tasksOf reqs 0)
      (List.replicate reqs.length Poll.pending)
      hnet (allCids_tasksOf_nodup reqs)
      (by
        intro c hc
        rw [List.length_replicate]
        exact allCids_tasksOf_lt reqs c hc)
  refine ⟨{ networks := nets, tasks := [], cells := cf },
    (tasksOf reqs 0).map (fun gp => (gp.1, gp.2.map Prod.fst)), ?_, ?_, rfl, ?_⟩
  · simp only [predict_batch, hrun]
  · rw [tasksOf, List.map_map]
    refine List.map_congr_left (fun n _ => ?_)
    simp only [Function.comp_apply]
    rw [groupIdx_map_fst]
  · intro k name x h
    have hklt : k < reqs.length := ltOfGetq h
    constructor
    · rw [enqueueAll_spec]
      simp only [async_predict, List.length_replicate, List.length_take]
      omega
    · obtain ⟨g, hg⟩ := Option.isSome_iff_exists.mp
        (hload (name, x) (memOfGetq _ k _ h))
      have hmemname : name ∈ reqs.map Prod.fst :=
        List.mem_map.mpr ⟨(name, x), memOfGetq _ k _ h, rfl⟩
      have hgp : (name, groupIdx reqs 0 name) ∈ tasksOf reqs 0 := by
        rw [tasksOf]
        exact List.mem_map.mpr ⟨name, (mem_firstOcc _ name).mpr hmemname, rfl⟩
      have hjc : (groupIdx reqs 0 name)[posIn reqs k name]? = some (x, k) := by
        have hx := groupIdx_pos reqs 0 k name x h
        rwa [Nat.zero_add] at hx
      have happly := hgroups (name, groupIdx reqs 0 name) hgp g hg
        (posIn reqs k name) x k hjc
      have hfst : (groupIdx reqs 0 name).map Prod.fst = inputsOf reqs name :=
        groupIdx_map_fst reqs 0 name
      have hjlt : posIn reqs k name < (runNet g setting (inputsOf reqs name)).length := by
        rw [hlen]
        have h1 : posIn reqs k name < (groupIdx reqs 0 name).length := ltOfGetq hjc
        have h2 : (groupIdx reqs 0 name).length = (inputsOf reqs name).length := by
          rw [← hfst, List.length_map]
        omega
      obtain ⟨d, hd⟩ : ∃ d,
          (runNet g setting (inputsOf reqs name))[posIn reqs k name]? = some d :=
        ⟨_, List.getElem?_eq_getElem hjlt⟩
      dsimp only at happly
      rw [hfst] at happly
      refine ⟨g, d, hg, hd, ?_⟩
      rw [pollCell_eq]
      show (cf[k]?).getD Poll.pending = Poll.ready d
      rw [happly.1 d hd]
      rfl

/-- Witness for C1: three requests, two under "a" and one under "b", against
networks "a" (adds 10) and "b" (adds 100). -/
theorem enqueue_flush_roundtrip_witness :
    (∀ r ∈ ([("a", 1), ("b", 2), ("a", 3)] : List (String × Nat)),
        (lookupN ([("a", 10), ("b", 100)] : List (String × Nat)) r.1).isSome)
    ∧ (∀ (g : Nat) (xs : List Nat),
        ((fun (g : Nat) (_ : Unit) (xs : List Nat) => xs.map (fun x => x + g)) g () xs).length
          = xs.length)
    ∧ ∃ p1 calls,
        predict_batch (fun (g : Nat) (_ : Unit) (xs : List Nat) => xs.map (fun x => x + g)) ()
            (enqueueAll (mkPredictor [("a", 10), ("b", 100)] : Predictor Nat Nat Nat)
              [("a", 1), ("b", 2), ("a", 3)])
          = some (p1, calls)
        ∧ calls = (firstOcc (([("a", 1), ("b", 2), ("a", 3)] :
              List (String × Nat)).map Prod.fst)).map
            (fun n => (n, inputsOf [("a", 1), ("b", 2), ("a", 3)] n))
        ∧ p1.tasks = []
        ∧ ∀ (k : Nat) (name : String) (x : Nat),
            ([("a", 1), ("b", 2), ("a", 3)] : List (String × Nat))[k]? = some (name, x) →
            (async_predict (enqueueAll
                (mkPredictor [("a", 10), ("b", 100)] : Predictor Nat Nat Nat)
                ([("a", 1), ("b", 2), ("a", 3)].take k)) name x).2 = k
            ∧ ∃ g d, lookupN [("a", 10), ("b", 100)] name = some g
              ∧ ((fun (g : Nat) (_ : Unit) (xs : List Nat) => xs.map (fun x => x + g)) g ()
                  (inputsOf [("a", 1), ("b", 2), ("a", 3)] name))[posIn
                    [("a", 1), ("b", 2), ("a", 3)] k name]? = some d
              ∧ pollCell p1 k = Poll.ready d :=
  ⟨by decide, fun g xs => by simp,
    enqueue_flush_roundtrip
      (fun (g : Nat) (_ : Unit) (xs : List Nat) => xs.map (fun x => x + g)) ()
      [("a", 10), ("b", 100)] [("a", 1), ("b", 2), ("a", 3)]
      (by decide) (fun g xs => by simp)⟩

/-!
## Claim theorems: the worker thread (`src/selfplay.rs`)
-/

/-- Events of a worker-thread step that are not loop-structure markers. -/
def MarkFree (l : List Ev) : Prop := ∀ e ∈ l, isMark e = false

theorem markFree_withEvs {Gr : Type} {r : PRes Gr} {pre : List Ev}
    (hpre : MarkFree pre) (hr : MarkFree r.events) :
    MarkFree (r.withEvs pre).events := by
  cases r with
  | ok ts e =>
      intro x hx
      rcases List.mem_append.mp hx with h1 | h2
      · exact hpre x h1
      · exact hr x h2
  | exited rp e =>
      intro x hx
      rcases List.mem_append.mp hx with h1 | h2
      · exact hpre x h1
      · exact hr x h2
  | panic rp e =>
      intro x hx
      rcases List.mem_append.mp hx with h1 | h2
      · exact hpre x h1
      · exact hr x h2
  | diverge => intro x hx; exact absurd hx (List.not_mem_nil x)

theorem markFree_bind {Gr : Type} {r : PRes Gr} {f : TState Gr → PRes Gr}
    (hr : MarkFree r.events) (hf : ∀ ts, MarkFree (f ts).events) :
    MarkFree (r.bind f).events := by
  cases r with
  | ok ts e => exact markFree_withEvs hr (hf ts)
  | exited rp e => exact hr
  | panic rp e => exact hr
  | diverge => exact hr

theorem markFree_enqStep {Gr : Type} (ts : TState Gr) (i : Nat) (name : String)
    (turn sim : Nat) : MarkFree (enqStep ts i name turn sim).events := by
  intro e he
  simp only [enqStep, PRes.events, List.mem_singleton] at he
  subst he
  rfl

theorem markFree_finishGame {Gr : Type} (cfg : WCfg) (ts : TState Gr) (i : Nat)
    (s : Sess) : MarkFree (finishGame cfg ts i s).events := by
  rw [finishGame]
  by_cases hw : ts.writerAlive
  · rw [if_pos hw]
    by_cases hts : 0 < cfg.T ∧ 0 < cfg.S
    · rw [if_pos hts]
      refine markFree_withEvs ?_ (markFree_enqStep _ _ _ _ _)
      intro e he
      rcases List.mem_cons.mp he with h1 | h2
      · subst h1; rfl
      · rw [List.mem_singleton.mp h2]; rfl
    · rw [if_neg hts]
      intro e he
      exact absurd he (List.not_mem_nil e)
  · rw [if_neg hw]
    intro e he
    exact absurd he (List.not_mem_nil e)

theorem markFree_pollSession {Gr : Type} (cfg : WCfg) (ts : TState Gr) (i : Nat) :
    MarkFree (pollSession cfg ts i).events := by
  cases hs : ts.sessions[i]? with
  | none =>
      simp only [pollSession, hs]
      intro e he
      exact absurd he (List.not_mem_nil e)
  | some s =>
      cases hw : s.waiting with
      | none =>
          by_cases hts : 0 < cfg.T ∧ 0 < cfg.S
          · simp only [pollSession, hs, hw, if_pos hts]
            refine markFree_withEvs ?_ (markFree_enqStep _ _ _ _ _)
            intro e he
            rw [List.mem_singleton.mp he]
            rfl
          · by_cases hwa : ts.writerAlive
            · simp only [pollSession, hs, hw, if_neg hts, if_pos hwa]
              intro e he
              exact absurd he (List.not_mem_nil e)
            · simp only [pollSession, hs, hw, if_neg hts, if_neg hwa]
              refine markFree_withEvs ?_ ?_
              · intro e he
                rw [List.mem_singleton.mp he]
                rfl
              · intro e he
                exact absurd he (List.not_mem_nil e)
      | some cid =>
          cases hp : pollCell ts.pred cid with
          | pending =>
              simp only [pollSession, hs, hw, hp]
              intro e he
              exact absurd he (List.not_mem_nil e)
          | ready v =>
              by_cases h1 : s.sim + 1 < cfg.S
              · simp only [pollSession, hs, hw, hp, if_pos h1]
                exact markFree_enqStep _ _ _ _ _
              · by_cases h2 : s.turn + 1 < cfg.T
                · simp only [pollSession, hs, hw, hp, if_neg h1, if_pos h2]
                  exact markFree_enqStep _ _ _ _ _
                · simp only [pollSession, hs, hw, hp, if_neg h1, if_neg h2]
                  exact markFree_finishGame _ _ _ _

theorem markFree_pollAllGo {Gr : Type} (cfg : WCfg) :
    ∀ (n i : Nat) (ts : TState Gr), MarkFree (pollAllGo cfg n i ts).events
  | 0, _, _ => by intro e he; exact absurd he (List.not_mem_nil e)
  | n + 1, i, ts => by
      rw [pollAllGo]
      exact markFree_bind (markFree_pollSession cfg ts i)
        (fun ts1 => markFree_pollAllGo cfg n (i + 1) ts1)

theorem flushStep_events {Gr : Type} (ts : TState Gr) :
    (flushStep ts).events = [] := by
  rw [flushStep]
  cases h : predict_batch runNetU () ts.pred with
  | none => rfl
  | some pc => rfl

theorem driveRound_marks {Gr : Type} (cfg : WCfg) :
    ∀ (k : Nat) (ts ts2 : TState Gr) (evs : List Ev),
      driveRound cfg k ts = PRes.ok ts2 evs →
      evs.filter isMark = pollFlushPattern k
  | 0, ts, ts2, evs, h => by
      rw [driveRound] at h
      injection h with h1 h2
      rw [← h2]
      rfl
  | k + 1, ts, ts2, evs, h => by
      rw [driveRound] at h
      cases hpa : pollAll cfg ts with
      | ok ts1 e1 =>
          rw [hpa] at h
          simp only [PRes.withEvs, PRes.bind] at h
          cases hfl : flushStep ts1 with
          | ok ts1f ef =>
              have hef : ef = [] := by
                have hev := flushStep_events ts1
                rw [hfl] at hev
                exact hev
              subst hef
              rw [hfl] at h
              simp only [PRes.withEvs, PRes.bind] at h
              cases hdr : driveRound cfg k ts1f with
              | ok ts2d e2 =>
                  rw [hdr] at h
                  simp only [PRes.withEvs] at h
                  injection h with h1 h2
                  subst h1
                  rw [← h2]
                  have hmf1 : e1.filter isMark = [] := by
                    rw [List.filter_eq_nil_iff]
                    intro a ha
                    have hmf := markFree_pollAllGo cfg ts.sessions.length 0 ts
                    rw [pollAll] at hpa
                    rw [hpa] at hmf
                    simp [hmf a ha]
                  have ih := driveRound_marks cfg k ts1f ts2d e2 hdr
                  simp only [List.filter_append, List.append_assoc, List.filter_cons,
                    List.append_nil]
                  rw [hmf1, ih]
                  rfl
              | exited rp e2 => rw [hdr] at h; simp [PRes.withEvs] at h
              | panic rp e2 => rw [hdr] at h; simp [PRes.withEvs] at h
              | diverge => rw [hdr] at h; simp [PRes.withEvs] at h
          | exited rp ef =>
              rw [hfl] at h
              simp [PRes.withEvs, PRes.bind] at h
          | panic rp ef =>
              rw [hfl] at h
              simp [PRes.withEvs, PRes.bind] at h
          | diverge =>
              rw [hfl] at h
              simp [PRes.withEvs, PRes.bind] at h
      | exited rp e1 => rw [hpa] at h; simp [PRes.withEvs, PRes.bind] at h
      | panic rp e1 => rw [hpa] at h; simp [PRes.withEvs, PRes.bind] at h
      | diverge => rw [hpa] at h; simp [PRes.withEvs, PRes.bind] at h

theorem drainLoop_ok_facts {Gr : Type} :
    ∀ (script : List (ChanObs Gr)) (ts ts1 : TState Gr) (evs : List Ev)
      (rest : List (ChanObs Gr)),
      drainLoop script ts = (PRes.ok ts1 evs, rest) →
      ts1.sessions = ts.sessions ∧ ts1.replays = ts.replays
        ∧ ts1.writerAlive = ts.writerAlive ∧ MarkFree evs
  | [], ts, ts1, evs, rest, h => by
      rw [drainLoop] at h
      injection h with h1 h2
      injection h1 with ha hb
      rw [← ha, ← hb]
      exact ⟨rfl, rfl, rfl, fun e he => absurd he (List.not_mem_nil e)⟩
  | ChanObs.msg n g :: script, ts, ts1, evs, rest, h => by
      rw [drainLoop] at h
      cases hd : drainLoop script
          { ts with pred := load_network ts.pred n g, cell := (n, g) } with
      | mk r rrest =>
          rw [hd] at h
          cases r with
          | ok tsr evr =>
              simp only [PRes.withEvs] at h
              injection h with h1 h2
              injection h1 with ha hb
              obtain ⟨hs, hr, hw, hmf⟩ := drainLoop_ok_facts script _ tsr evr rrest hd
              rw [← ha, ← hb]
              refine ⟨hs, hr, hw, ?_⟩
              intro e he
              rcases List.mem_cons.mp he with h1 | h2
              · subst h1; rfl
              · exact hmf e h2
          | exited rp e => simp [PRes.withEvs] at h
          | panic rp e => simp [PRes.withEvs] at h
          | diverge => simp [PRes.withEvs] at h
  | ChanObs.empty :: script, ts, ts1, evs, rest, h => by
      rw [drainLoop] at h
      injection h with h1 h2
      injection h1 with ha hb
      rw [← ha, ← hb]
      exact ⟨rfl, rfl, rfl, fun e he => absurd he (List.not_mem_nil e)⟩
  | ChanObs.disconnected :: script, ts, ts1, evs, rest, h => by
      rw [drainLoop] at h
      injection h with h1 h2
      exact absurd h1 (by simp)

/-- C5: in every outer-loop iteration that runs to completion, after the
model-sync drain the drive round executes exactly 5 repetitions of
poll-every-session-slot-once followed by one Predictor flush: the marker
subtrace of the iteration's events is exactly 5 poll/flush pairs. -/
theorem outer_loop_five_poll_flush_rounds {Gr : Type} (cfg : WCfg)
    (script : List (ChanObs Gr)) (ts ts2 : TState Gr) (evs : List Ev)
    (rest : List (ChanObs Gr))
    (h : outerIter cfg script ts = (PRes.ok ts2 evs, rest)) :
    evs.filter isMark = pollFlushPattern 5 := by
  rw [outerIter] at h
  cases hd : drainLoop script ts with
  | mk r drest =>
      rw [hd] at h
      cases r with
      | ok tsd ed =>
          simp only [PRes.bind] at h
          cases hdr : driveRound cfg 5 tsd with
          | ok ts2d e5 =>
              rw [hdr] at h
              simp only [PRes.withEvs] at h
              injection h with h1 h2
              injection h1 with ha hb
              rw [← hb, List.filter_append]
              have hmfd : ed.filter isMark = [] := by
                rw [List.filter_eq_nil_iff]
                intro a ha2
                have := (drainLoop_ok_facts script ts tsd ed drest hd).2.2.2 a ha2
                simp [this]
              rw [hmfd, driveRound_marks cfg 5 tsd ts2d e5 hdr]
              rfl
          | exited rp e5 => rw [hdr] at h; simp [PRes.withEvs] at h
          | panic rp e5 => rw [hdr] at h; simp [PRes.withEvs] at h
          | diverge => rw [hdr] at h; simp [PRes.withEvs] at h
      | exited rp ed => simp [PRes.bind] at h
      | panic rp ed => simp [PRes.bind] at h
      | diverge => simp [PRes.bind] at h

/-- Witness for C5: a worker with no session slots and an empty drain; one
outer iteration emits exactly the 5 poll/flush marker pairs. -/
theorem outer_loop_five_poll_flush_rounds_witness :
    outerIter (WCfg.mk 1 1 0) ([] : List (ChanObs Nat))
        (TState.mk Predictor.new ("a", 0) [] [] true)
      = (PRes.ok (TState.mk Predictor.new ("a", 0) [] [] true)
          [Ev.pollAllMark, Ev.flushMark, Ev.pollAllMark, Ev.flushMark, Ev.pollAllMark,
           Ev.flushMark, Ev.pollAllMark, Ev.flushMark, Ev.pollAllMark, Ev.flushMark], [])
    ∧ ([Ev.pollAllMark, Ev.flushMark, Ev.pollAllMark, Ev.flushMark, Ev.pollAllMark,
        Ev.flushMark, Ev.pollAllMark, Ev.flushMark, Ev.pollAllMark,
        Ev.flushMark].filter isMark)
      = pollFlushPattern 5 :=
  ⟨by decide,
    outer_loop_five_poll_flush_rounds (WCfg.mk 1 1 0) []
      (TState.mk Predictor.new ("a", 0) [] [] true)
      (TState.mk Predictor.new ("a", 0) [] [] true)
      [Ev.pollAllMark, Ev.flushMark, Ev.pollAllMark, Ev.flushMark, Ev.pollAllMark,
       Ev.flushMark, Ev.pollAllMark, Ev.flushMark, Ev.pollAllMark, Ev.flushMark]
      [] (by decide)⟩

theorem bootstrapRecv_empties {Gr : Type} :
    ∀ (pre rest : List (ChanObs Gr)), (∀ o ∈ pre, o = ChanObs.empty) →
      bootstrapRecv (pre ++ ChanObs.disconnected :: rest) = BootRes.closed
  | [], rest, _ => rfl
  | o :: pre, rest, h => by
      have ho : o = ChanObs.empty := h o (List.mem_cons_self _ _)
      subst ho
      rw [List.cons_append, bootstrapRecv]
      exact bootstrapRecv_empties pre rest (fun o2 ho2 => h o2 (List.mem_cons_of_mem _ ho2))

theorem drainLoop_disconnect {Gr : Type} :
    ∀ (ms : List (String × Gr)) (rest : List (ChanObs Gr)) (ts : TState Gr),
      drainLoop (ms.map (fun z => ChanObs.msg z.1 z.2) ++ ChanObs.disconnected :: rest) ts
        = (PRes.exited ts.replays (ms.map (fun z => Ev.drainMsg z.1)), [])
  | [], rest, ts => rfl
  | (n, g) :: ms, rest, ts => by
      rw [List.map_cons, List.cons_append, drainLoop,
        drainLoop_disconnect ms rest
          { ts with pred := load_network ts.pred n g, cell := (n, g) }]
      rfl

/-- C8: a worker thread whose model-notification channel is closed before
any model arrives returns at once: no predictor is created, no session runs,
no event is emitted and no replay is produced; and when a later model-sync
drain observes the disconnection, the outer iteration returns immediately
(abandoning the in-flight sessions), keeping only the replays already
delivered. -/
theorem channel_close_terminates_worker {Gr : Type} (cfg : WCfg) :
    (∀ (fuel : Nat) (pre rest : List (ChanObs Gr)),
        (∀ o ∈ pre, o = ChanObs.empty) →
        threadRun cfg fuel (pre ++ ChanObs.disconnected :: rest) = PRes.exited [] [])
    ∧ ∀ (ts : TState Gr) (ms : List (String × Gr)) (rest : List (ChanObs Gr)),
        outerIter cfg (ms.map (fun z => ChanObs.msg z.1 z.2)
            ++ ChanObs.disconnected :: rest) ts
          = (PRes.exited ts.replays (ms.map (fun z => Ev.drainMsg z.1)), []) := by
  constructor
  · intro fuel pre rest hpre
    rw [threadRun, bootstrapRecv_empties pre rest hpre]
  · intro ts ms rest
    rw [outerIter, drainLoop_disconnect ms rest ts]
    rfl

/-- Witness for C8: a channel that reports closure after one empty probe
terminates the thread with no replays; a drain that receives one model "m"
and then the disconnection exits keeping the one already-delivered replay. -/
theorem channel_close_terminates_worker_witness :
    (∀ o ∈ ([ChanObs.empty] : List (ChanObs Nat)), o = ChanObs.empty)
    ∧ threadRun (WCfg.mk 1 1 1) 3
        (([ChanObs.empty] : List (ChanObs Nat)) ++ ChanObs.disconnected :: [])
      = PRes.exited [] []
    ∧ outerIter (WCfg.mk 1 1 1)
        (([("m", 5)] : List (String × Nat)).map (fun z => ChanObs.msg z.1 z.2)
          ++ ChanObs.disconnected :: [])
        (TState.mk Predictor.new ("a", 0) [] ["r"] true)
      = (PRes.exited ["r"]
          (([("m", 5)] : List (String × Nat)).map (fun z => Ev.drainMsg z.1)), []) :=
  ⟨by decide,
    (channel_close_terminates_worker (WCfg.mk 1 1 1)).1 3 [ChanObs.empty] [] (by decide),
    (channel_close_terminates_worker (WCfg.mk 1 1 1)).2
      (TState.mk Predictor.new ("a", 0) [] ["r"] true) [("m", 5)] []⟩

/-- C10: when a session completes a game while the replay channel's receiver
is gone, the `send(..).unwrap()` panics: the session's poll yields the panic
result (not a normal return), the finished replay is not delivered (the
delivered list is unchanged), and the panic propagates through the
executor's poll round, aborting the worker thread. -/
theorem replay_send_unwrap_panics {Gr : Type} (cfg : WCfg) (ts : TState Gr) (i : Nat)
    (s : Sess) (cid : Nat)
    (hs : ts.sessions[i]? = some s)
    (hw : s.waiting = some cid)
    (hr : pollCell ts.pred cid = Poll.ready ())
    (hsim : ¬ s.sim + 1 < cfg.S)
    (hturn : ¬ s.turn + 1 < cfg.T)
    (hdead : ts.writerAlive = false) :
    pollSession cfg ts i = PRes.panic ts.replays []
    ∧ ∀ n, pollAllGo cfg (n + 1) i ts = PRes.panic ts.replays [] := by
  have h1 : pollSession cfg ts i = PRes.panic ts.replays [] := by
    simp [pollSession, hs, hw, hr, if_neg hsim, if_neg hturn, finishGame, hdead]
  refine ⟨h1, fun n => ?_⟩
  rw [pollAllGo, h1]
  rfl

/-- Witness for C10: one session at the last query of its last decision
point, result ready, writer receiver dead: its poll and the whole poll round
panic and the delivered-replay list stays `["done"]`. -/
theorem replay_send_unwrap_panics_witness :
    ((TState.mk (Predictor.mk [("a", 0)] [] [Poll.ready ()]) ("a", (0 : Nat))
        [Sess.mk "a" 0 0 (some 0)] ["done"] false).sessions[0]?
      = some (Sess.mk "a" 0 0 (some 0)))
    ∧ (Sess.mk "a" 0 0 (some 0)).waiting = some 0
    ∧ pollCell (TState.mk (Predictor.mk [("a", 0)] [] [Poll.ready ()]) ("a", (0 : Nat))
        [Sess.mk "a" 0 0 (some 0)] ["done"] false).pred 0 = Poll.ready ()
    ∧ ¬ (Sess.mk "a" 0 0 (some 0)).sim + 1 < (WCfg.mk 1 1 1).S
    ∧ ¬ (Sess.mk "a" 0 0 (some 0)).turn + 1 < (WCfg.mk 1 1 1).T
    ∧ (TState.mk (Predictor.mk [("a", 0)] [] [Poll.ready ()]) ("a", (0 : Nat))
        [Sess.mk "a" 0 0 (some 0)] ["done"] false).writerAlive = false
    ∧ pollSession (WCfg.mk 1 1 1)
        (TState.mk (Predictor.mk [("a", 0)] [] [Poll.ready ()]) ("a", (0 : Nat))
          [Sess.mk "a" 0 0 (some 0)] ["done"] false) 0
      = PRes.panic ["done"] []
    ∧ pollAllGo (WCfg.mk 1 1 1) 1 0
        (TState.mk (Predictor.mk [("a", 0)] [] [Poll.ready ()]) ("a", (0 : Nat))
          [Sess.mk "a" 0 0 (some 0)] ["done"] false)
      = PRes.panic ["done"] [] :=
  ⟨by decide, by decide, by decide, by decide, by decide, by decide,
    (replay_send_unwrap_panics (WCfg.mk 1 1 1) _ 0 (Sess.mk "a" 0 0 (some 0)) 0
      (by decide) (by decide) (by decide) (by decide) (by decide) (by decide)).1,
    (replay_send_unwrap_panics (WCfg.mk 1 1 1) _ 0 (Sess.mk "a" 0 0 (some 0)) 0
      (by decide) (by decide) (by decide) (by decide) (by decide) (by decide)).2 0⟩

/-- C4 (amended): a session reads the version cell once per game, at game
start, not once per decision point.  While a session is inside a game
(suspended on a cell), one executor poll either emits nothing, or emits a
decision-point query under the identifier the session captured at game
start — never under the current cell value — or finishes the game: only
then is the cell re-read, and the new identifier is used from the next
game's first query on.  The model-sync drain changes only the cell, never
the sessions, so a mid-game model update cannot change the identifier used
at the remaining decision points of the current game. -/
theorem session_uses_game_start_version {Gr : Type} (cfg : WCfg) (ts : TState Gr)
    (i : Nat) (s : Sess) (cid : Nat)
    (hs : ts.sessions[i]? = some s) (hw : s.waiting = some cid)
    (hT : 0 < cfg.T) (hS : 0 < cfg.S) :
    (pollSession cfg ts i = PRes.panic ts.replays []
      ∨ ∃ ts1 evs, pollSession cfg ts i = PRes.ok ts1 evs
        ∧ (evs = []
           ∨ evs = [Ev.query i s.turn s.captured]
           ∨ evs = [Ev.query i (s.turn + 1) s.captured]
           ∨ evs = [Ev.replaySent i s.captured, Ev.cellRead i ts.cell.1,
                    Ev.query i 0 ts.cell.1]))
    ∧ ∀ (script : List (ChanObs Gr)) (ts1 : TState Gr) (evs : List Ev)
        (rest : List (ChanObs Gr)),
        drainLoop script ts = (PRes.ok ts1 evs, rest) → ts1.sessions = ts.sessions := by
  constructor
  · cases hp : pollCell ts.pred cid with
    | pending =>
        right
        exact ⟨ts, [], by simp [pollSession, hs, hw, hp], Or.inl rfl⟩
    | ready v =>
        cases v
        by_cases h1 : s.sim + 1 < cfg.S
        · right
          have hps : pollSession cfg ts i = enqStep ts i s.captured s.turn (s.sim + 1) := by
            simp [pollSession, hs, hw, hp, if_pos h1]
          simp only [enqStep] at hps
          exact ⟨_, _, hps, Or.inr (Or.inl rfl)⟩
        · by_cases h2 : s.turn + 1 < cfg.T
          · right
            have hps : pollSession cfg ts i
                = enqStep ts i s.captured (s.turn + 1) 0 := by
              simp [pollSession, hs, hw, hp, if_neg h1, if_pos h2]
            simp only [enqStep] at hps
            exact ⟨_, _, hps, Or.inr (Or.inr (Or.inl rfl))⟩
          · by_cases hwa : ts.writerAlive
            · right
              have hps : pollSession cfg ts i
                  = (enqStep { ts with replays := ts.replays ++ [s.captured] } i
                      ts.cell.1 0 0).withEvs
                    [Ev.replaySent i s.captured, Ev.cellRead i ts.cell.1] := by
                simp [pollSession, hs, hw, hp, if_neg h1, if_neg h2, finishGame,
                  hwa, hT, hS]
              simp only [enqStep, PRes.withEvs, List.cons_append, List.nil_append] at hps
              exact ⟨_, _, hps, Or.inr (Or.inr (Or.inr rfl))⟩
            · left
              simp [pollSession, hs, hw, hp, if_neg h1, if_neg h2, finishGame, hwa]
  · intro script ts1 evs rest h
    exact (drainLoop_ok_facts script ts ts1 evs rest h).1

/-- Witness for C4 (amended): a session mid-game under captured identifier
"a" while the version cell already holds "b": its next poll queries under
"a", not "b". -/
theorem session_uses_game_start_version_witness :
    ((TState.mk (Predictor.mk [("a", 0)] [] [Poll.ready ()]) ("b", (0 : Nat))
        [Sess.mk "a" 0 0 (some 0)] [] true).sessions[0]?
      = some (Sess.mk "a" 0 0 (some 0)))
    ∧ (Sess.mk "a" 0 0 (some 0)).waiting = some 0
    ∧ 0 < (WCfg.mk 2 1 1).T ∧ 0 < (WCfg.mk 2 1 1).S
    ∧ ((pollSession (WCfg.mk 2 1 1)
          (TState.mk (Predictor.mk [("a", 0)] [] [Poll.ready ()]) ("b", (0 : Nat))
            [Sess.mk "a" 0 0 (some 0)] [] true) 0
        = PRes.panic (TState.mk (Predictor.mk [("a", 0)] [] [Poll.ready ()])
            ("b", (0 : Nat)) [Sess.mk "a" 0 0 (some 0)] [] true).replays []
      ∨ ∃ ts1 evs, pollSession (WCfg.mk 2 1 1)
          (TState.mk (Predictor.mk [("a", 0)] [] [Poll.ready ()]) ("b", (0 : Nat))
            [Sess.mk "a" 0 0 (some 0)] [] true) 0 = PRes.ok ts1 evs
        ∧ (evs = []
           ∨ evs = [Ev.query 0 (Sess.mk "a" 0 0 (some 0)).turn
               (Sess.mk "a" 0 0 (some 0)).captured]
           ∨ evs = [Ev.query 0 ((Sess.mk "a" 0 0 (some 0)).turn + 1)
               (Sess.mk "a" 0 0 (some 0)).captured]
           ∨ evs = [Ev.replaySent 0 (Sess.mk "a" 0 0 (some 0)).captured,
               Ev.cellRead 0 "b", Ev.query 0 0 "b"]))) := by
  refine ⟨by decide, by decide, by decide, by decide, ?_⟩
  exact (session_uses_game_start_version (WCfg.mk 2 1 1)
    (TState.mk (Predictor.mk [("a", 0)] [] [Poll.ready ()]) ("b", (0 : Nat))
      [Sess.mk "a" 0 0 (some 0)] [] true) 0 (Sess.mk "a" 0 0 (some 0)) 0
    (by decide) (by decide) (by decide) (by decide)).1

/-- Counterexample to C4 as stated: in the concrete run `threadRun cfg4 2
script4` (7-decision games, model "A" at bootstrap, model "B" delivered
while the first game is in flight) the first game performs 7 decision-point
queries but reads the version cell exactly once, and every decision point of
the game — including the two after the mid-game update to "B" — uses "A".
So a session does not read the cell once per decision point, and a mid-game
update does not change the identifier used at the remaining decision points
of the same game. -/
theorem session_version_read_cadence_counterexample :
    ((firstGameEvs ((threadRun cfg4 2 script4).events)).filter isCellRead0).length = 1
    ∧ ((firstGameEvs ((threadRun cfg4 2 script4).events)).filter isQuery0).length = 7
    ∧ ((firstGameEvs ((threadRun cfg4 2 script4).events)).filter isQuery0).map evName
        = List.replicate 7 "A"
    ∧ Ev.drainMsg "B" ∈ firstGameEvs ((threadRun cfg4 2 script4).events)
    ∧ (((firstGameEvs ((threadRun cfg4 2 script4).events)).dropWhile
          (fun e => !(decide (e = Ev.drainMsg "B")))).filter isQuery0).map evName
        = ["A", "A"] := by
  decide

/-- Witness for C2: reach `Ready 6` for cell 0 via load+enqueue+flush, then
run another enqueue+flush; cell 0 still polls `Ready 6`. -/
theorem future_cell_lifecycle_witness :
    (prun (fun (g : Nat) (_ : Unit) (xs : List Nat) => xs.map (fun x => x + g)) ()
        Predictor.new [POp.load "a" 1, POp.enq "a" 5, POp.flush]
      = some (Predictor.mk [("a", 1)] [] [Poll.ready 6]))
    ∧ pollCell (Predictor.mk [("a", 1)] [] [Poll.ready 6] : Predictor Nat Nat Nat) 0
      = Poll.ready 6
    ∧ (prun (fun (g : Nat) (_ : Unit) (xs : List Nat) => xs.map (fun x => x + g)) ()
        (Predictor.mk [("a", 1)] [] [Poll.ready 6]) [POp.enq "a" 7, POp.flush]
      = some (Predictor.mk [("a", 1)] [] [Poll.ready 6, Poll.ready 8]))
    ∧ pollCell (Predictor.mk [("a", 1)] [] [Poll.ready 6, Poll.ready 8] :
        Predictor Nat Nat Nat) 0 = Poll.ready 6 :=
  ⟨by decide, by decide, by decide,
    (future_cell_lifecycle (fun (g : Nat) (_ : Unit) (xs : List Nat) =>
        xs.map (fun x => x + g)) ()).2
      [POp.load "a" 1, POp.enq "a" 5, POp.flush]
      (Predictor.mk [("a", 1)] [] [Poll.ready 6]) 0 6
      [POp.enq "a" 7, POp.flush]
      (Predictor.mk [("a", 1)] [] [Poll.ready 6, Poll.ready 8])
      (by decide) (by decide) (by decide)⟩
